import Mathlib

/-!
Verification development for the bybit-shortBot backtesting core.

The Python sources (src/backtest/{models,config,portfolio,position_manager,
strategy_engine,backtester}.py and src/live/risk_manager.py) are shallowly
embedded below.  Prices and monetary amounts are modelled as rationals;
Python dicts become insertion-ordered association lists; the object heap of
mutable Trade records shared between the PositionManager and the Portfolio
is modelled as a list indexed by allocation order, so that aliasing
(close_position mutating a trade that the portfolio also references) is
explicit.  The nondeterministic inputs of the program (uuid4 hex strings in
trade ids, datetime.now in the risk-manager history) are modelled as
explicit streams of strings threaded through the run.
-/

/-- One OHLCV bar (models.py has timestamp/open/high/low/close/volume; the
engine reads timestamp, high, low, close). -/
structure Candle where
  timestamp : ℤ := 0
  openPrice : ℚ := 0
  high : ℚ := 0
  low : ℚ := 0
  close : ℚ := 0
  volume : ℚ := 0
  deriving Repr, DecidableEq

/-- StrategyConfig from src/backtest/config.py (numeric fields used by the
engine, with the source defaults). -/
structure StrategyConfig where
  pump_threshold : ℚ := 1/5
  pump_window : ℕ := 96
  stall_bars : ℕ := 2
  tp_percent : ℚ := 3/20
  sl_multiplier : ℚ := 2
  trade_size_usdt : ℚ := 20
  initial_capital : ℚ := 1000
  maker_fee : ℚ := 1/10000
  taker_fee : ℚ := 6/10000
  slippage : ℚ := 1/2000
  watchlist_timeout : ℕ := 96
  deriving Repr, DecidableEq

/-- WatchlistItem from src/backtest/models.py. -/
structure WatchlistItem where
  symbol : String
  pump_start_idx : ℕ
  pump_end_idx : ℕ
  local_high : ℚ
  local_high_idx : ℤ
  pump_price_start : ℚ
  pump_percent : ℚ
  added_time_idx : ℕ
  last_high_update_idx : ℕ
  stall_counter : ℕ := 0
  active : Bool := true
  deriving Repr, DecidableEq

/-- Trade from src/backtest/models.py.  Optional fields are unset until the
trade is closed. -/
structure Trade where
  symbol : String
  trade_id : String
  entry_time : ℤ
  entry_idx : ℕ
  entry_price : ℚ
  entry_fee : ℚ
  slippage_entry : ℚ
  local_high : ℚ
  pump_start_time : ℤ
  pump_end_time : ℤ
  pump_percent : ℚ
  tp_price : ℚ
  sl_price : ℚ
  position_size : ℚ := 0
  exit_time : Option ℤ := none
  exit_idx : Option ℕ := none
  exit_price : Option ℚ := none
  exit_fee : Option ℚ := none
  slippage_exit : Option ℚ := none
  exit_reason : Option String := none
  pnl_usdt : Option ℚ := none
  pnl_percent : Option ℚ := none
  funding_paid : ℚ := 0
  fees_total : Option ℚ := none
  slippage_total : Option ℚ := none
  duration_bars : Option ℤ := none
  duration_minutes : Option ℤ := none
  mfe : Option ℚ := none
  mae : Option ℚ := none
  deriving Repr, DecidableEq

/-- Per-coin statistics in the RiskManager (src/live/risk_manager.py). -/
structure CoinStats where
  trades : ℕ := 0
  profitable : ℕ := 0
  total_pnl : ℚ := 0
  max_loss : ℚ := 0
  deriving Repr, DecidableEq

/-- One entry of the RiskManager's bounded trade history. -/
structure HistEntry where
  time : String
  symbol : String
  pnl_usdt : ℚ
  pnl_percent : ℚ
  deriving Repr, DecidableEq

/-- The RiskManager state (src/live/risk_manager.py). -/
structure RiskState where
  initial_capital : ℚ
  current_capital : ℚ
  peak_capital : ℚ
  today_pnl : ℚ := 0
  coin_stats : List (String × CoinStats) := []
  consecutive_losses : ℕ := 0
  trades_history : List HistEntry := []
  deriving Repr, DecidableEq

/-- One record of portfolio.equity_history (Portfolio.record_snapshot). -/
structure Snapshot where
  timestamp : ℤ
  idx : ℕ
  equity : ℚ
  cash : ℚ
  open_positions_value : ℚ
  open_positions_count : ℕ
  drawdown : ℚ
  deriving Repr, DecidableEq

/-! ### Python dict model: insertion-ordered association lists -/

/-- `d[k]` lookup. -/
def dget {α : Type} (d : List (String × α)) (k : String) : Option α :=
  match d with
  | [] => none
  | (k', v) :: rest => if k' = k then some v else dget rest k

/-- `d[k] = v`: replace in place if the key exists, else append. -/
def dset {α : Type} (d : List (String × α)) (k : String) (v : α) :
    List (String × α) :=
  match d with
  | [] => [(k, v)]
  | (k', v') :: rest =>
      if k' = k then (k', v) :: rest else (k', v') :: dset rest k v

/-- `del d[k]` (removes every binding of `k`; Python keys are unique). -/
def ddel {α : Type} (d : List (String × α)) (k : String) :
    List (String × α) :=
  d.filter (fun e => ¬ e.1 = k)

/-- `list(d.keys())`. -/
def dkeys {α : Type} (d : List (String × α)) : List String :=
  d.map Prod.fst

/-! ### RiskManager (src/live/risk_manager.py) -/

/-- Fresh RiskManager state (RiskManager.__init__). -/
def initRisk (initial_capital : ℚ) : RiskState :=
  { initial_capital := initial_capital
    current_capital := initial_capital
    peak_capital := initial_capital }

/-- RiskManager.update_stats. -/
def update_stats (r : RiskState) (symbol : String) (pnl_percent : ℚ) :
    RiskState :=
  let stats := (dget r.coin_stats symbol).getD {}
  let stats := { stats with
    trades := stats.trades + 1
    total_pnl := stats.total_pnl + pnl_percent }
  let stats :=
    if pnl_percent > 0 then { stats with profitable := stats.profitable + 1 }
    else { stats with max_loss := min stats.max_loss pnl_percent }
  { r with coin_stats := dset r.coin_stats symbol stats }

/-- RiskManager.get_position_multiplier. -/
def get_position_multiplier (r : RiskState) (symbol : String) : ℚ :=
  match dget r.coin_stats symbol with
  | none => 1/2
  | some stats =>
      if stats.trades < 3 then 1/2
      else if stats.max_loss < -200 then 1/4
      else if (stats.profitable : ℚ) / (stats.trades : ℚ) < 7/10 then 1/2
      else 1

/-- RiskManager.on_trade_result (`time` stands for datetime.now). -/
def on_trade_result (time : String) (pnl_usdt pnl_percent : ℚ)
    (symbol : String) (r : RiskState) : RiskState :=
  let cur := r.current_capital + pnl_usdt
  let r := { r with
    current_capital := cur
    today_pnl := r.today_pnl + pnl_usdt
    peak_capital := if cur > r.peak_capital then cur else r.peak_capital
    consecutive_losses := if pnl_usdt < 0 then r.consecutive_losses + 1 else 0 }
  let r := update_stats r symbol pnl_percent
  let hist := r.trades_history ++
    [{ time := time, symbol := symbol, pnl_usdt := pnl_usdt,
       pnl_percent := pnl_percent }]
  let hist := if hist.length > 1000 then hist.drop (hist.length - 1000) else hist
  { r with trades_history := hist }

/-! ### Pump detection (Backtester.detect_pump_numba / scan_for_pumps_numba) -/

/-- Bar accessor (`df.iloc[i]`; out-of-range reads, which the program never
performs, return a default bar). -/
def candleAt (data : List Candle) (i : ℕ) : Candle :=
  data.getD i {}

/-- Backtester.detect_pump_numba: scan `[idx-pump_window, idx]` for the first
maximal high; returns `(max_price, max_idx, pump_percent)` with `max_idx = -1`
meaning no signal. -/
def detect_pump_numba (high close : ℕ → ℚ) (idx pump_window : ℕ)
    (threshold : ℚ) : ℚ × ℤ × ℚ :=
  let start_idx := idx - pump_window
  let m := (List.range' (start_idx + 1) (idx - start_idx)).foldl
    (fun p i => if high i > p.1 then (high i, i) else p) (high start_idx, start_idx)
  let start_price := close start_idx
  if start_price = 0 then (0, -1, 0)
  else
    let pump_percent := (m.1 - start_price) / start_price
    if pump_percent ≥ threshold then (m.1, (m.2 : ℤ), pump_percent)
    else (0, -1, 0)

/-- Backtester.scan_for_pumps_numba: wrap a detected pump into a
WatchlistItem. -/
def scan_for_pumps_numba (symbol : String) (high close : ℕ → ℚ)
    (idx pump_window : ℕ) (threshold : ℚ) : Option WatchlistItem :=
  let r := detect_pump_numba high close idx pump_window threshold
  if r.2.1 = -1 then none
  else
    some { symbol := symbol
           pump_start_idx := idx - pump_window
           pump_end_idx := idx
           local_high := r.1
           local_high_idx := r.2.1
           pump_price_start := close (idx - pump_window)
           pump_percent := r.2.2 * 100
           added_time_idx := idx
           last_high_update_idx := idx }

/-! ### StrategyEngine.scan_for_pumps (strategy_engine.py:19-54)

The non-numba detector — the one Backtester.run_multiprocess uses — computes
`pump_percent = (max_price - start_price) / start_price` on float64 columns
with no zero guard, so a zero denominator produces ±inf or NaN rather than
raising.  The division result is modelled explicitly as a float64 value. -/

/-- A float64 value arising from dividing finite operands: finite, ±inf, or
NaN. -/
inductive FloatQ where
  | fin : ℚ → FloatQ
  | posInf : FloatQ
  | negInf : FloatQ
  | nan : FloatQ
  deriving Repr, DecidableEq

/-- float64 division of finite operands: a zero denominator yields +inf for a
positive numerator, −inf for a negative one, and NaN for 0/0. -/
def fdiv (num den : ℚ) : FloatQ :=
  if den = 0 then
    if num > 0 then FloatQ.posInf
    else if num < 0 then FloatQ.negInf
    else FloatQ.nan
  else FloatQ.fin (num / den)

/-- float64 `x >= t` against a finite threshold: +inf compares true, −inf
false, and every NaN comparison is false. -/
def fge (x : FloatQ) (t : ℚ) : Bool :=
  match x with
  | FloatQ.fin q => q ≥ t
  | FloatQ.posInf => true
  | FloatQ.negInf => false
  | FloatQ.nan => false

/-- float64 multiplication by the finite positive constant 100 (used for the
stored `pump_percent * 100`). -/
def fmul100 (x : FloatQ) : FloatQ :=
  match x with
  | FloatQ.fin q => FloatQ.fin (q * 100)
  | y => y

/-- `window['high'].idxmax()`: the index of the first maximal high on
`[start_idx, current_idx]`. -/
def idxmaxHigh (data : List Candle) (start_idx current_idx : ℕ) : ℕ :=
  (List.range' (start_idx + 1) (current_idx - start_idx)).foldl
    (fun m i => if (candleAt data i).high > (candleAt data m).high then i else m)
    start_idx

/-- The WatchlistItem built by StrategyEngine.scan_for_pumps; its
pump_percent is a float64 value, which is non-finite when the anchor close is
zero. -/
structure WatchlistItemF where
  symbol : String
  pump_start_idx : ℕ
  pump_end_idx : ℕ
  local_high : ℚ
  local_high_idx : ℕ
  pump_price_start : ℚ
  pump_percent : FloatQ
  added_time_idx : ℕ
  last_high_update_idx : ℕ
  deriving Repr, DecidableEq

/-- StrategyEngine.scan_for_pumps: no zero-anchor guard; the pump_percent
division is executed unconditionally with float64 semantics and the result is
compared against the threshold. -/
def scan_for_pumps (cfg : StrategyConfig) (symbol : String)
    (data : List Candle) (current_idx : ℕ) : Option WatchlistItemF :=
  if current_idx < cfg.pump_window then none
  else
    let start_idx := current_idx - cfg.pump_window
    let start_price := (candleAt data start_idx).close
    let max_idx := idxmaxHigh data start_idx current_idx
    let max_price := (candleAt data max_idx).high
    let pump_percent := fdiv (max_price - start_price) start_price
    if fge pump_percent cfg.pump_threshold then
      some { symbol := symbol
             pump_start_idx := start_idx
             pump_end_idx := current_idx
             local_high := max_price
             local_high_idx := max_idx
             pump_price_start := start_price
             pump_percent := fmul100 pump_percent
             added_time_idx := current_idx
             last_high_update_idx := current_idx }
    else none

/-! ### StrategyEngine (src/backtest/strategy_engine.py) -/

/-- StrategyEngine.add_to_watchlist. -/
def add_to_watchlist (wl : List (String × WatchlistItem))
    (item : WatchlistItem) : List (String × WatchlistItem) :=
  dset wl item.symbol item

/-- The per-bar advance of one watchlist entry (lines 79–87 of
update_watchlist): a new local high resets the stall counter, otherwise the
counter increments. -/
def advanceItem (data : List Candle) (idx : ℕ) (item : WatchlistItem) :
    WatchlistItem :=
  let c := candleAt data idx
  if c.high > item.local_high then
    { item with local_high := c.high, local_high_idx := (idx : ℤ),
                last_high_update_idx := idx, stall_counter := 0 }
  else { item with stall_counter := item.stall_counter + 1 }

/-- Body of the `for symbol in list(self.watchlist.keys())` loop of
StrategyEngine.update_watchlist, for one key. -/
def update_watchlist_step (cfg : StrategyConfig) (data : List Candle)
    (idx : ℕ) (acc : List (String × WatchlistItem) × List WatchlistItem)
    (k : String) : List (String × WatchlistItem) × List WatchlistItem :=
  match dget acc.1 k with
  | none => acc
  | some item =>
      if (idx : ℤ) - (item.added_time_idx : ℤ) ≥ (cfg.watchlist_timeout : ℤ) then
        (ddel acc.1 k, acc.2)
      else
        let item' := advanceItem data idx item
        let wl' := dset acc.1 k item'
        if item'.stall_counter ≥ cfg.stall_bars then (wl', acc.2 ++ [item'])
        else (wl', acc.2)

/-- StrategyEngine.update_watchlist: advance every entry one bar; returns the
updated watchlist and the entries that are ready for entry. -/
def update_watchlist (cfg : StrategyConfig) (data : List Candle) (idx : ℕ)
    (wl : List (String × WatchlistItem)) :
    List (String × WatchlistItem) × List WatchlistItem :=
  (dkeys wl).foldl (update_watchlist_step cfg data idx) (wl, [])

/-- The pending Trade built inside StrategyEngine.check_entry_conditions
(`hex` is the uuid4 hex fragment of the trade id). -/
def pendingTrade (cfg : StrategyConfig) (data : List Candle) (idx : ℕ)
    (item : WatchlistItem) (hex : String) : Trade :=
  let c := candleAt data idx
  let tp_price := item.local_high * (1 - cfg.tp_percent)
  let entry_price := c.close * (1 + cfg.slippage)
  let sl_price := entry_price * cfg.sl_multiplier
  { symbol := item.symbol
    trade_id := item.symbol ++ "_" ++ toString idx ++ "_" ++ hex
    entry_time := c.timestamp
    entry_idx := idx
    entry_price := entry_price
    entry_fee := cfg.trade_size_usdt * cfg.taker_fee
    slippage_entry := cfg.slippage
    local_high := item.local_high
    pump_start_time := (candleAt data item.pump_start_idx).timestamp
    pump_end_time := (candleAt data item.pump_end_idx).timestamp
    pump_percent := item.pump_percent
    tp_price := tp_price
    sl_price := sl_price }

/-- StrategyEngine.check_entry_conditions.  `positions` is the
PositionManager's symbol → trade-ref map.  Returns the pending trade (if
any) and the watchlist, from which a consumed item is removed. -/
def check_entry_conditions (cfg : StrategyConfig) (data : List Candle)
    (idx : ℕ) (item : WatchlistItem) (wl : List (String × WatchlistItem))
    (positions : List (String × ℕ)) (hex : String) :
    Option Trade × List (String × WatchlistItem) :=
  if (dget positions item.symbol).isSome then (none, wl)
  else
    let c := candleAt data idx
    let tp_price := item.local_high * (1 - cfg.tp_percent)
    if c.close ≤ tp_price then (none, wl)
    else (some (pendingTrade cfg data idx item hex), ddel wl item.symbol)

/-! ### Shared simulation state

One `SimState` bundles the mutable state of the sequential Backtester: the
object heap of Trade records (indexed by allocation order, so that the
PositionManager and the Portfolio alias the same trades), the
StrategyEngine's watchlist, the PositionManager's positions and RiskManager,
and the Portfolio ledger. -/

structure SimState where
  heap : List Trade := []
  wl : List (String × WatchlistItem) := []
  positions : List (String × ℕ) := []
  risk : RiskState
  cash : ℚ
  peak : ℚ
  ptrades : List ℕ := []
  equity_history : List Snapshot := []
  all_trades : List ℕ := []
  uuidCtr : ℕ := 0
  clockCtr : ℕ := 0
  deriving Repr, DecidableEq

/-- Dereference a trade ref in the heap. -/
def hget (h : List Trade) (r : ℕ) : Trade :=
  h.getD r { symbol := "", trade_id := "", entry_time := 0, entry_idx := 0,
             entry_price := 0, entry_fee := 0, slippage_entry := 0,
             local_high := 0, pump_start_time := 0, pump_end_time := 0,
             pump_percent := 0, tp_price := 0, sl_price := 0 }

/-- Fresh Backtester state (Backtester.__init__: Portfolio and the
PositionManager's RiskManager are both initialised from the config). -/
def initState (cfg : StrategyConfig) : SimState :=
  { risk := initRisk cfg.initial_capital
    cash := cfg.initial_capital
    peak := cfg.initial_capital }

/-! ### PositionManager (src/backtest/position_manager.py) -/

/-- PositionManager.get_position_size. -/
def get_position_size (cfg : StrategyConfig) (risk : RiskState)
    (symbol : String) : ℚ :=
  cfg.trade_size_usdt * get_position_multiplier risk symbol

/-- Trade.calculate_metrics (models.py): MFE/MAE over
`[entry_idx, exit_idx]`, left unset when the segment is empty. -/
def calculate_metrics (data : List Candle) (t : Trade) : Trade :=
  match t.exit_idx with
  | none => t
  | some e =>
      let len := min (e + 1) data.length - t.entry_idx
      if len = 0 then t
      else
        let seg := (List.range' t.entry_idx len).map (candleAt data)
        let min_price := (seg.map Candle.low).foldl min (candleAt data t.entry_idx).low
        let max_price := (seg.map Candle.high).foldl max (candleAt data t.entry_idx).high
        { t with
          mfe := some ((min_price - t.entry_price) * 100 / t.entry_price)
          mae := some ((max_price - t.entry_price) * 100 / t.entry_price) }

/-- The field updates of PositionManager.close_position on the closing
trade. -/
def closedTrade (cfg : StrategyConfig) (data : List Candle) (idx : ℕ)
    (exit_price : ℚ) (reason : String) (t : Trade) : Trade :=
  let ps := if t.position_size = 0 then cfg.trade_size_usdt else t.position_size
  let fees_total := ps * cfg.taker_fee + ps * cfg.taker_fee
  let slippage_total := t.slippage_entry + cfg.slippage
  let pnl := (t.entry_price - exit_price) / t.entry_price * ps
    - fees_total - slippage_total
  let dur := (idx : ℤ) - (t.entry_idx : ℤ)
  calculate_metrics data
    { t with
      exit_time := some (candleAt data idx).timestamp
      exit_idx := some idx
      exit_price := some exit_price
      exit_reason := some reason
      slippage_exit := some cfg.slippage
      position_size := ps
      entry_fee := ps * cfg.taker_fee
      exit_fee := some (ps * cfg.taker_fee)
      fees_total := some fees_total
      slippage_total := some slippage_total
      pnl_usdt := some pnl
      pnl_percent := some (pnl / ps * 100)
      duration_bars := some dur
      duration_minutes := some (dur * 15) }

/-- PositionManager.close_position: a no-op when the symbol has no resident
position, otherwise records the exit on the resident trade and removes it
from the positions map. -/
def close_position (cfg : StrategyConfig) (data : List Candle)
    (symbol : String) (idx : ℕ) (exit_price : ℚ) (reason : String)
    (s : SimState) : SimState :=
  match dget s.positions symbol with
  | none => s
  | some r =>
      { s with
        heap := s.heap.set r (closedTrade cfg data idx exit_price reason (hget s.heap r))
        positions := ddel s.positions symbol }

/-- The RiskManager notification performed after each close
(`on_trade_result(trade.pnl_usdt if trade.pnl_usdt else 0, ...)` reading the
trade object `r` after the close attempt). -/
def notifyRisk (clock : ℕ → String) (r : ℕ) (s : SimState) : SimState :=
  let t := hget s.heap r
  { s with
    risk := on_trade_result (clock s.clockCtr) ((t.pnl_usdt).getD 0)
      ((t.pnl_percent).getD 0) t.symbol s.risk
    clockCtr := s.clockCtr + 1 }

/-- PositionManager.open_position on the already-allocated pending trade
`ref`: sets the risk-scaled size, then checks the entry bar's extremes for an
immediate SL (first) or TP fill; on neither, the trade becomes resident. -/
def open_position (cfg : StrategyConfig) (data : List Candle)
    (clock : ℕ → String) (ref : ℕ) (idx : ℕ) (s : SimState) :
    (Bool × Option String) × SimState :=
  let t := hget s.heap ref
  let ps := get_position_size cfg s.risk t.symbol
  let t := { t with position_size := ps, entry_fee := ps * cfg.taker_fee }
  let s := { s with heap := s.heap.set ref t }
  let c := candleAt data idx
  if c.high ≥ t.sl_price then
    let s := close_position cfg data t.symbol idx (t.sl_price * (1 + cfg.slippage)) "sl" s
    ((false, some "sl_immediate"), notifyRisk clock ref s)
  else if c.low ≤ t.tp_price then
    let s := close_position cfg data t.symbol idx (t.tp_price * (1 + cfg.slippage)) "tp" s
    ((false, some "tp_immediate"), notifyRisk clock ref s)
  else
    ((true, none), { s with positions := dset s.positions t.symbol ref })

/-- Body of the PositionManager.check_positions loop for one symbol. -/
def check_positions_step (cfg : StrategyConfig) (data : List Candle)
    (clock : ℕ → String) (idx : ℕ)
    (acc : List (String × String) × SimState) (symbol : String) :
    List (String × String) × SimState :=
  match dget acc.2.positions symbol with
  | none => acc
  | some r =>
      let t := hget acc.2.heap r
      let c := candleAt data idx
      if c.high ≥ t.sl_price then
        let s := close_position cfg data symbol idx (t.sl_price * (1 + cfg.slippage)) "sl" acc.2
        (acc.1 ++ [(symbol, "sl")], notifyRisk clock r s)
      else if c.low ≤ t.tp_price then
        let s := close_position cfg data symbol idx (t.tp_price * (1 + cfg.slippage)) "tp" acc.2
        (acc.1 ++ [(symbol, "tp")], notifyRisk clock r s)
      else acc

/-- PositionManager.check_positions: scan every resident position for a TP/SL
fill on bar `idx`; returns the closed symbols with their reasons. -/
def check_positions (cfg : StrategyConfig) (data : List Candle)
    (clock : ℕ → String) (idx : ℕ) (s : SimState) :
    List (String × String) × SimState :=
  (dkeys s.positions).foldl (check_positions_step cfg data clock idx) ([], s)

/-- Body of the PositionManager.force_close_all loop for one symbol. -/
def force_close_step (cfg : StrategyConfig) (data : List Candle)
    (clock : ℕ → String) (idx : ℕ) (reason : String)
    (acc : SimState × List ℕ) (symbol : String) : SimState × List ℕ :=
  let exit_price := (candleAt data idx).close * (1 + cfg.slippage)
  match dget acc.1.positions symbol with
  | none => acc
  | some r =>
      let s := close_position cfg data symbol idx exit_price reason acc.1
      (notifyRisk clock r s, acc.2 ++ [r])

/-- PositionManager.force_close_all: close every resident position at bar
`idx`'s close price adjusted by slippage. -/
def force_close_all (cfg : StrategyConfig) (data : List Candle)
    (clock : ℕ → String) (idx : ℕ) (reason : String) (s : SimState) :
    SimState × List ℕ :=
  if s.positions = [] then (s, [])
  else (dkeys s.positions).foldl (force_close_step cfg data clock idx reason) (s, [])

/-! ### Portfolio (src/backtest/portfolio.py) -/

/-- Portfolio.can_open_position. -/
def can_open_position (cfg : StrategyConfig) (s : SimState) : Prop :=
  s.cash ≥ cfg.trade_size_usdt

instance (cfg : StrategyConfig) (s : SimState) :
    Decidable (can_open_position cfg s) := by
  unfold can_open_position; infer_instance

/-- Portfolio.update_capital on the trade `r`. -/
def update_capital (s : SimState) (r : ℕ) : SimState :=
  let cash := s.cash + ((hget s.heap r).pnl_usdt).getD 0
  { s with cash := cash, peak := max s.peak cash }

/-- Portfolio.get_total_equity with no current prices: cash plus, for each
still-open portfolio trade, its last computed pnl (unset, hence 0). -/
def get_total_equity (s : SimState) : ℚ :=
  s.cash + (s.ptrades.foldl
    (fun acc r =>
      if (hget s.heap r).exit_time = none then acc + ((hget s.heap r).pnl_usdt).getD 0
      else acc) 0)

/-- Portfolio.record_snapshot (no current prices are passed by the run
loop). -/
def record_snapshot (cfg : StrategyConfig) (timestamp : ℤ) (idx : ℕ)
    (s : SimState) : SimState :=
  let total_equity := get_total_equity s
  let openCount := (s.ptrades.filter (fun r => (hget s.heap r).exit_time = none)).length
  let snap : Snapshot :=
    { timestamp := timestamp
      idx := idx
      equity := total_equity
      cash := s.cash
      open_positions_value := (openCount : ℚ) * cfg.trade_size_usdt
      open_positions_count := openCount
      drawdown := if s.peak > 0 then (s.peak - total_equity) / s.peak * 100 else 0 }
  { s with
    equity_history := s.equity_history ++ [snap]
    peak := max s.peak total_equity }

/-! ### Backtester.run_on_symbol (src/backtest/backtester.py) -/

/-- Step (3) of the bar loop for one ready watchlist item: capital gate, entry
evaluation, position opening, and the bookkeeping of a successful entry.  The
accumulator carries the run state and `symbol_trades`. -/
def processReadyItem (cfg : StrategyConfig) (data : List Candle)
    (uuid clock : ℕ → String) (idx : ℕ) (acc : SimState × List ℕ)
    (item : WatchlistItem) : SimState × List ℕ :=
  let s := acc.1
  if can_open_position cfg s then
    match check_entry_conditions cfg data idx item s.wl s.positions (uuid s.uuidCtr) with
    | (none, wl') => ({ s with wl := wl' }, acc.2)
    | (some t, wl') =>
        let ref := s.heap.length
        let s := { s with wl := wl', heap := s.heap ++ [t], uuidCtr := s.uuidCtr + 1 }
        let r := open_position cfg data clock ref idx s
        if r.1.1 then
          ({ r.2 with ptrades := r.2.ptrades ++ [ref],
                      all_trades := r.2.all_trades ++ [ref] }, acc.2 ++ [ref])
        else (r.2, acc.2)
  else acc

/-- Step (5) of the bar loop for one closed symbol: walk portfolio.trades in
reverse for the most recent closed trade of that symbol and update capital
once for it. -/
def updateCapitalForClosed (s : SimState) (symbol : String) : SimState :=
  match s.ptrades.reverse.find?
      (fun r => (hget s.heap r).symbol == symbol && ((hget s.heap r).exit_time).isSome) with
  | some r => update_capital s r
  | none => s

/-- One iteration of the bar loop of Backtester.run_on_symbol. -/
def stepBar (cfg : StrategyConfig) (symbol : String) (data : List Candle)
    (uuid clock : ℕ → String) (acc : SimState × List ℕ) (idx : ℕ) :
    SimState × List ℕ :=
  let high := fun i => (candleAt data i).high
  let close := fun i => (candleAt data i).close
  let s := acc.1
  let s :=
    match scan_for_pumps_numba symbol high close idx cfg.pump_window cfg.pump_threshold with
    | some item => { s with wl := add_to_watchlist s.wl item }
    | none => s
  let u := update_watchlist cfg data idx s.wl
  let s := { s with wl := u.1 }
  let p := u.2.foldl (processReadyItem cfg data uuid clock idx) (s, acc.2)
  let r := check_positions cfg data clock idx p.1
  let s := (r.1.map Prod.fst).foldl updateCapitalForClosed r.2
  let s := if idx % 4 = 0 then record_snapshot cfg (candleAt data idx).timestamp idx s else s
  (s, p.2)

/-- Steps (2)–(6) of one bar-loop iteration (everything after the pump scan),
on the state `S` reached after the scan and the incoming `symbol_trades`
accumulator `t`. -/
def stepTail (cfg : StrategyConfig) (data : List Candle)
    (uuid clock : ℕ → String) (idx : ℕ) (S : SimState) (t : List ℕ) :
    SimState × List ℕ :=
  let u := update_watchlist cfg data idx S.wl
  let s := { S with wl := u.1 }
  let p := u.2.foldl (processReadyItem cfg data uuid clock idx) (s, t)
  let r := check_positions cfg data clock idx p.1
  let s := (r.1.map Prod.fst).foldl updateCapitalForClosed r.2
  let s := if idx % 4 = 0 then record_snapshot cfg (candleAt data idx).timestamp idx s else s
  (s, p.2)

/-- The bar loop of Backtester.run_on_symbol (after the per-symbol watchlist
and positions reset, before the end-of-data closure). -/
def runLoop (cfg : StrategyConfig) (symbol : String) (data : List Candle)
    (uuid clock : ℕ → String) (s : SimState) : SimState × List ℕ :=
  let s := { s with wl := [], positions := [] }
  (List.range' cfg.pump_window (data.length - cfg.pump_window)).foldl
    (stepBar cfg symbol data uuid clock) (s, [])

/-- Backtester.run_on_symbol: the bar loop followed by the end-of-data force
close and the capital updates for the force-closed trades.  Returns the final
state and `symbol_trades`. -/
def run_on_symbol (cfg : StrategyConfig) (symbol : String)
    (data : List Candle) (uuid clock : ℕ → String) (s : SimState) :
    SimState × List ℕ :=
  let p := runLoop cfg symbol data uuid clock s
  let f := force_close_all cfg data clock (data.length - 1) "eod" p.1
  (f.2.foldl update_capital f.1, p.2)

/-- Backtester.run_sequential: one shared Portfolio/PositionManager state
across all symbols, processed one after another from a fresh Backtester. -/
def run_sequential (cfg : StrategyConfig)
    (market_data : List (String × List Candle)) (uuid clock : ℕ → String) :
    SimState :=
  market_data.foldl
    (fun s p => (run_on_symbol cfg p.1 p.2 uuid clock s).1) (initState cfg)

/-! ### Derived notions used in the statements -/

/-- The trade objects of `portfolio.trades`. -/
def portfolioTrades (s : SimState) : List Trade :=
  s.ptrades.map (hget s.heap)

/-- The trade objects of the aggregate `all_trades` list. -/
def allTradesList (s : SimState) : List Trade :=
  s.all_trades.map (hget s.heap)

/-- Sum of `pnl_usdt` over the closed trades among the refs `l`. -/
def closedSum (h : List Trade) (l : List ℕ) : ℚ :=
  (l.map (fun r =>
    if ((hget h r).exit_time).isSome then ((hget h r).pnl_usdt).getD 0 else 0)).sum

/-- Every trade referenced by `l` is closed. -/
def allClosed (h : List Trade) (l : List ℕ) : Prop :=
  ∀ r ∈ l, ((hget h r).exit_time).isSome

instance (h : List Trade) (l : List ℕ) : Decidable (allClosed h l) := by
  unfold allClosed; infer_instance

/-- The ledger invariant that holds between two sequential per-symbol runs:
capital equals initial capital plus the realized pnl of the portfolio's
trades, all portfolio refs are valid, and every portfolio trade is closed. -/
def LedgerOk (cfg : StrategyConfig) (s : SimState) : Prop :=
  s.cash = cfg.initial_capital + closedSum s.heap s.ptrades ∧
  (∀ r ∈ s.ptrades, r < s.heap.length) ∧
  allClosed s.heap s.ptrades

instance (cfg : StrategyConfig) (s : SimState) : Decidable (LedgerOk cfg s) := by
  unfold LedgerOk; infer_instance

/-- The invariant maintained across the bar loop of `run_on_symbol` for the
symbol `sym`: the ledger equation, ref validity, at most one resident
position (which is the most recently added portfolio trade, still open, of
the run's symbol, everything before it being closed), and a watchlist that
only tracks the run's symbol. -/
def LoopInv (cfg : StrategyConfig) (sym : String) (s : SimState) : Prop :=
  s.cash = cfg.initial_capital + closedSum s.heap s.ptrades ∧
  (∀ r ∈ s.ptrades, r < s.heap.length) ∧
  ((s.positions = [] ∧ allClosed s.heap s.ptrades) ∨
    (∃ r pre, s.positions = [(sym, r)] ∧ s.ptrades = pre ++ [r] ∧
      (hget s.heap r).exit_time = none ∧ (hget s.heap r).symbol = sym ∧
      allClosed s.heap pre ∧ (∀ r' ∈ pre, r' < r))) ∧
  (∀ kv ∈ s.wl, kv.2.symbol = sym)

/-- Erase the uuid-derived trade id of a trade. -/
def eraseId (t : Trade) : Trade := { t with trade_id := "" }

/-- Erase the wall-clock stamp of a risk-history entry. -/
def eraseTime (e : HistEntry) : HistEntry := { e with time := "" }

/-- Erase the wall-clock stamps of the risk-manager history. -/
def riskErase (r : RiskState) : RiskState :=
  { r with trades_history := r.trades_history.map eraseTime }

/-- Two simulation states that agree except for uuid-derived trade ids and
wall-clock stamps. -/
def SimRel (a b : SimState) : Prop :=
  a.heap.map eraseId = b.heap.map eraseId ∧ a.wl = b.wl ∧
  a.positions = b.positions ∧ riskErase a.risk = riskErase b.risk ∧
  a.cash = b.cash ∧ a.peak = b.peak ∧ a.ptrades = b.ptrades ∧
  a.equity_history = b.equity_history ∧ a.all_trades = b.all_trades ∧
  a.uuidCtr = b.uuidCtr ∧ a.clockCtr = b.clockCtr

/-! ### Concrete fixtures used by witnesses and counterexamples -/

/-- A risk state whose symbol X has three losing trades, the worst at
−300%. -/
def riskC6 : RiskState :=
  { initial_capital := 1000, current_capital := 1000, peak_capital := 1000,
    coin_stats := [("X", { trades := 3, profitable := 0, total_pnl := -300,
                           max_loss := -300 })] }

/-- A deterministic stand-in stream for uuid4 hex fragments. -/
def testUuid (n : ℕ) : String := "u" ++ toString n

/-- A second uuid stream, disagreeing with `testUuid`. -/
def testUuid2 (n : ℕ) : String := "v" ++ toString n

/-- A stand-in stream for datetime.now values. -/
def testClock (n : ℕ) : String := "t" ++ toString n

/-- A second clock stream. -/
def testClock2 (n : ℕ) : String := "w" ++ toString n

/-- A small test configuration (window 2, 20% threshold, stall 2 bars,
tp 40% of local high, SL at twice entry, no slippage). -/
def cfgA : StrategyConfig :=
  { pump_window := 2, pump_threshold := 1/5, stall_bars := 2,
    tp_percent := 2/5, sl_multiplier := 2, trade_size_usdt := 20,
    initial_capital := 1000, taker_fee := 6/10000, slippage := 0,
    watchlist_timeout := 96 }

/-- Bar constructor for fixtures. -/
def mkBar (h l c : ℚ) : Candle := { high := h, low := l, close := c }

/-- A pump at bar 2 (anchor close 100, max high 130) that is not re-detected
at bar 3 (anchor close 200); highs after bar 2 never exceed 130. -/
def dataC9 : List Candle :=
  [mkBar 100 100 100, mkBar 100 100 200, mkBar 130 100 100, mkBar 100 100 100]

/-- Like `dataC9` but bar 3's low (70) is at or below the tp price 78, so the
entry fills immediately on its entry bar. -/
def dataTP : List Candle :=
  [mkBar 100 100 100, mkBar 100 100 200, mkBar 130 100 100, mkBar 100 70 100]

/-- Like `dataC9` but the position opened at bar 3 hits its TP at bar 4. -/
def dataRes : List Candle :=
  [mkBar 100 100 100, mkBar 100 100 200, mkBar 130 100 100, mkBar 100 100 100,
   mkBar 100 75 90]

/-- Like `dataC9` but the position opened at bar 3 never hits TP or SL and is
still resident at the last bar. -/
def dataEod : List Candle :=
  [mkBar 100 100 100, mkBar 100 100 200, mkBar 130 100 100, mkBar 100 100 100,
   mkBar 100 85 90]

/-- Pathological series with a negative anchor close. -/
def dataNeg : List Candle :=
  [mkBar (-200) (-200) (-100), mkBar (-200) (-200) (-100),
   mkBar (-200) (-200) (-100)]

/-- Series whose window anchor close is exactly zero while the window highs
are positive. -/
def dataZero : List Candle :=
  [mkBar 10 0 0, mkBar 10 0 5, mkBar 12 0 6]

/-- A watchlist entry one bar short of its stall threshold. -/
def itemC5 : WatchlistItem :=
  { symbol := "X", pump_start_idx := 0, pump_end_idx := 0, local_high := 130,
    local_high_idx := 0, pump_price_start := 100, pump_percent := 30,
    added_time_idx := 0, last_high_update_idx := 0, stall_counter := 1 }

/-- Bars 1 and 2 close at 70, below the tp price 130·(1−0.4) = 78. -/
def dataC5 : List Candle :=
  [mkBar 100 100 100, mkBar 100 100 70, mkBar 100 100 70]

/-- The candidate detected at bar 2 of `dataC9`. -/
def itemC9 : WatchlistItem :=
  { symbol := "X", pump_start_idx := 0, pump_end_idx := 2, local_high := 130,
    local_high_idx := 2, pump_price_start := 100, pump_percent := 30,
    added_time_idx := 2, last_high_update_idx := 2 }

/-- A pending trade (entry 100, tp 78, sl 200) as produced by
check_entry_conditions. -/
def tradeP : Trade :=
  { symbol := "X", trade_id := "X_3_u0", entry_time := 0, entry_idx := 3,
    entry_price := 100, entry_fee := 3/250, slippage_entry := 0,
    local_high := 130, pump_start_time := 0, pump_end_time := 0,
    pump_percent := 30, tp_price := 78, sl_price := 200 }

/-- Bar 3 breaches both the SL (high 250 ≥ 200) and the TP (low 70 ≤ 78). -/
def dataBoth : List Candle :=
  [mkBar 100 100 100, mkBar 100 100 100, mkBar 100 100 100, mkBar 250 70 100]

/-- State in which `tradeP` is allocated but not yet resident. -/
def sOP : SimState :=
  { risk := initRisk 1000, cash := 1000, peak := 1000, heap := [tradeP] }

/-- State in which `tradeP` is a resident open position held by the
portfolio. -/
def sRes : SimState :=
  { risk := initRisk 1000, cash := 1000, peak := 1000, heap := [tradeP],
    positions := [("X", 0)], ptrades := [0], all_trades := [0] }

/-! ### Dictionary and heap lemmas -/

theorem dget_dset_self {α : Type} (d : List (String × α)) (k : String) (v : α) :
    dget (dset d k v) k = some v := by
  induction d with
  | nil => simp [dget, dset]
  | cons e rest ih =>
      obtain ⟨k', v'⟩ := e
      by_cases h : k' = k <;> simp [dget, dset, h, ih]

theorem dget_dset_ne {α : Type} (d : List (String × α)) {k' k : String}
    (v : α) (h : k' ≠ k) : dget (dset d k' v) k = dget d k := by
  induction d with
  | nil => simp [dget, dset, h]
  | cons e rest ih =>
      obtain ⟨k'', v''⟩ := e
      by_cases h2 : k'' = k' <;> simp [dget, dset, h2, ih]
      subst h2
      simp [h, dget]

theorem dget_ddel_self {α : Type} (d : List (String × α)) (k : String) :
    dget (ddel d k) k = none := by
  induction d with
  | nil => simp [dget, ddel]
  | cons e rest ih =>
      obtain ⟨k', v'⟩ := e
      by_cases h : k' = k <;> simp [dget, ddel, h] at ih ⊢ <;> simpa [ddel] using ih

theorem mem_dset {α : Type} {d : List (String × α)} {k : String} {v : α}
    {e : String × α} (h : e ∈ dset d k v) : e ∈ d ∨ e = (k, v) := by
  induction d with
  | nil => simpa [dset] using h
  | cons e' rest ih =>
      obtain ⟨k', v'⟩ := e'
      by_cases h2 : k' = k
      · simp [dset, h2] at h
        rcases h with h | h
        · subst h2; right; simp [h]
        · left; simp [h]
      · simp [dset, h2] at h
        rcases h with h | h
        · left; simp [h]
        · rcases ih h with h3 | h3
          · left; simp [h3]
          · right; exact h3

theorem mem_ddel {α : Type} {d : List (String × α)} {k : String}
    {e : String × α} (h : e ∈ ddel d k) : e ∈ d :=
  List.mem_of_mem_filter h

theorem hget_set_self {h : List Trade} {r : ℕ} (hr : r < h.length) (t : Trade) :
    hget (h.set r t) r = t := by
  unfold hget
  rw [List.getD_eq_getElem?_getD, List.getElem?_set_self hr]
  rfl

theorem hget_set_ne {h : List Trade} {r' r : ℕ} (hne : r' ≠ r) (t : Trade) :
    hget (h.set r' t) r = hget h r := by
  unfold hget
  rw [List.getD_eq_getElem?_getD, List.getElem?_set_ne hne,
    ← List.getD_eq_getElem?_getD]

theorem hget_append {h l : List Trade} {r : ℕ} (hr : r < h.length) :
    hget (h ++ l) r = hget h r := by
  unfold hget
  rw [List.getD_eq_getElem?_getD, List.getElem?_append_left hr,
    ← List.getD_eq_getElem?_getD]

theorem hget_append_length (h : List Trade) (t : Trade) :
    hget (h ++ [t]) h.length = t := by
  unfold hget
  rw [List.getD_eq_getElem?_getD]
  simp

/-! ### C8: zero-anchor guard in the pump detector -/

/-- Helper: if the close at the window anchor is exactly zero, the numba
detector returns the no-signal sentinel and emits no candidate, and its
pump_percent division is not executed; this numba guard covers only a zero
anchor (a negative anchor does not suppress the candidate, see the
counterexample), and the non-numba scan_for_pumps has no guard at all. -/
theorem C8_zero_anchor_no_candidate (high close : ℕ → ℚ)
    (idx pw : ℕ) (threshold : ℚ) (symbol : String)
    (h : close (idx - pw) = 0) :
    detect_pump_numba high close idx pw threshold = (0, -1, 0) ∧
    scan_for_pumps_numba symbol high close idx pw threshold = none := by
  have hd : detect_pump_numba high close idx pw threshold = (0, -1, 0) := by
    unfold detect_pump_numba
    simp [h]
  refine ⟨hd, ?_⟩
  unfold scan_for_pumps_numba
  rw [hd]
  rfl

/-- The numba zero-anchor helper at a concrete anchor price of zero. -/
theorem C8_zero_anchor_no_candidate_witness :
    (fun _ : ℕ => (0 : ℚ)) (2 - 2) = 0 ∧
    scan_for_pumps_numba "X" (fun _ => 100) (fun _ => 0) 2 2 (1/5) = none :=
  ⟨rfl, (C8_zero_anchor_no_candidate (fun _ => 100) (fun _ => 0) 2 2 (1/5) "X" rfl).2⟩

/-- C8 counterexample: with a negative anchor close (−100) and highs −200,
pump_percent evaluates to 1 and a candidate IS emitted, so "zero (or
negative) anchor → no candidate" is false as stated. -/
theorem C8_counterexample :
    (candleAt dataNeg 0).close < 0 ∧
    scan_for_pumps_numba "X" (fun i => (candleAt dataNeg i).high)
      (fun i => (candleAt dataNeg i).close) 2 2 (1/2) =
      some { symbol := "X", pump_start_idx := 0, pump_end_idx := 2,
             local_high := -200, local_high_idx := 0, pump_price_start := -100,
             pump_percent := 100, added_time_idx := 2,
             last_high_update_idx := 2 } := by
  exact ⟨by norm_num [candleAt, dataNeg, mkBar], by with_unfolding_all decide⟩

/-! ### C6: risk multiplier contract -/

/-- C6 (amended): get_position_multiplier returns 0.5 for an unseen symbol or
one with fewer than 3 recorded trades; only past that gate, 0.25 when the
recorded worst pnl_percent is below −200, 0.5 when the win rate is below 0.7,
and 1.0 otherwise.  A trade with pnl_percent < −200 forces the recorded worst
loss below −200, and the recorded worst loss never increases, so from 3
trades onward the multiplier stays 0.25 regardless of the other stats. -/
theorem C6_risk_multiplier_contract (r : RiskState) (symbol : String) :
    (dget r.coin_stats symbol = none → get_position_multiplier r symbol = 1/2) ∧
    (∀ st, dget r.coin_stats symbol = some st →
      (st.trades < 3 → get_position_multiplier r symbol = 1/2) ∧
      (3 ≤ st.trades → st.max_loss < -200 →
        get_position_multiplier r symbol = 1/4) ∧
      (3 ≤ st.trades → -200 ≤ st.max_loss →
        (st.profitable : ℚ) / (st.trades : ℚ) < 7/10 →
        get_position_multiplier r symbol = 1/2) ∧
      (3 ≤ st.trades → -200 ≤ st.max_loss →
        7/10 ≤ (st.profitable : ℚ) / (st.trades : ℚ) →
        get_position_multiplier r symbol = 1)) ∧
    (∀ p, p < -200 →
      ((dget (update_stats r symbol p).coin_stats symbol).getD {}).max_loss < -200) ∧
    (∀ sym' p,
      ((dget (update_stats r sym' p).coin_stats symbol).getD {}).max_loss ≤
        ((dget r.coin_stats symbol).getD {}).max_loss) := by
  refine ⟨?_, ?_, ?_, ?_⟩
  · intro h
    unfold get_position_multiplier
    rw [h]
  · intro st h
    have hm : get_position_multiplier r symbol =
        (if st.trades < 3 then 1/2
         else if st.max_loss < -200 then 1/4
         else if (st.profitable : ℚ) / (st.trades : ℚ) < 7/10 then 1/2
         else (1 : ℚ)) := by
      unfold get_position_multiplier
      rw [h]
    rw [hm]
    refine ⟨fun h1 => by rw [if_pos h1], fun h1 h2 => ?_, fun h1 h2 h3 => ?_,
      fun h1 h2 h3 => ?_⟩
    · rw [if_neg (by omega), if_pos h2]
    · rw [if_neg (by omega), if_neg (by linarith), if_pos h3]
    · rw [if_neg (by omega), if_neg (by linarith), if_neg (by linarith)]
  · intro p hp
    have hle : ¬ p > 0 := by linarith
    simp only [update_stats, hle, if_false, dget_dset_self, Option.getD_some]
    exact lt_of_le_of_lt (min_le_right _ p) hp
  · intro sym' p
    by_cases hs : sym' = symbol
    · subst hs
      by_cases hp : p > 0
      · simp [update_stats, hp, dget_dset_self]
      · simp only [update_stats, hp, if_false, dget_dset_self, Option.getD_some]
        exact min_le_left _ p
    · simp only [update_stats]
      rw [dget_dset_ne _ _ hs]

/-- C6 counterexample: after a single trade at −300% the symbol has fewer
than 3 recorded trades, so the multiplier is 0.5, not 0.25 — "after any
single trade with pnl_percent < −200 the multiplier is 0.25 regardless of the
symbol's other stats" is false as stated. -/
theorem C6_counterexample :
    ((-300 : ℚ) < -200) ∧
    get_position_multiplier (update_stats (initRisk 10000) "X" (-300)) "X" = 1/2 ∧
    ¬ get_position_multiplier (update_stats (initRisk 10000) "X" (-300)) "X" = 1/4 := by
  with_unfolding_all decide

/-- Witness for C6 on a symbol with 3 recorded trades, the worst at −300%. -/
theorem C6_risk_multiplier_contract_witness :
    dget riskC6.coin_stats "X" =
      some { trades := 3, profitable := 0, total_pnl := -300, max_loss := -300 } ∧
    get_position_multiplier riskC6 "X" = 1/4 := by
  have h : dget riskC6.coin_stats "X" =
      some { trades := 3, profitable := 0, total_pnl := -300, max_loss := -300 } := by
    with_unfolding_all decide
  exact ⟨h, ((C6_risk_multiplier_contract riskC6 "X").2.1 _ h).2.1 (by norm_num)
    (by norm_num)⟩

/-! ### C4: close/PnL formulas -/

/-- calculate_metrics only writes the mfe/mae fields (projection lemmas). -/
theorem cm_position_size (data : List Candle) (t : Trade) :
    (calculate_metrics data t).position_size = t.position_size := by
  unfold calculate_metrics
  cases he : t.exit_idx
  · rfl
  · dsimp only
    split <;> rfl

theorem cm_fees_total (data : List Candle) (t : Trade) :
    (calculate_metrics data t).fees_total = t.fees_total := by
  unfold calculate_metrics
  cases he : t.exit_idx
  · rfl
  · dsimp only
    split <;> rfl

theorem cm_slippage_entry (data : List Candle) (t : Trade) :
    (calculate_metrics data t).slippage_entry = t.slippage_entry := by
  unfold calculate_metrics
  cases he : t.exit_idx
  · rfl
  · dsimp only
    split <;> rfl

theorem cm_slippage_exit (data : List Candle) (t : Trade) :
    (calculate_metrics data t).slippage_exit = t.slippage_exit := by
  unfold calculate_metrics
  cases he : t.exit_idx
  · rfl
  · dsimp only
    split <;> rfl

theorem cm_slippage_total (data : List Candle) (t : Trade) :
    (calculate_metrics data t).slippage_total = t.slippage_total := by
  unfold calculate_metrics
  cases he : t.exit_idx
  · rfl
  · dsimp only
    split <;> rfl

theorem cm_pnl_usdt (data : List Candle) (t : Trade) :
    (calculate_metrics data t).pnl_usdt = t.pnl_usdt := by
  unfold calculate_metrics
  cases he : t.exit_idx
  · rfl
  · dsimp only
    split <;> rfl

theorem cm_pnl_percent (data : List Candle) (t : Trade) :
    (calculate_metrics data t).pnl_percent = t.pnl_percent := by
  unfold calculate_metrics
  cases he : t.exit_idx
  · rfl
  · dsimp only
    split <;> rfl

theorem cm_duration_bars (data : List Candle) (t : Trade) :
    (calculate_metrics data t).duration_bars = t.duration_bars := by
  unfold calculate_metrics
  cases he : t.exit_idx
  · rfl
  · dsimp only
    split <;> rfl

theorem cm_exit_price (data : List Candle) (t : Trade) :
    (calculate_metrics data t).exit_price = t.exit_price := by
  unfold calculate_metrics
  cases he : t.exit_idx
  · rfl
  · dsimp only
    split <;> rfl

theorem cm_exit_reason (data : List Candle) (t : Trade) :
    (calculate_metrics data t).exit_reason = t.exit_reason := by
  unfold calculate_metrics
  cases he : t.exit_idx
  · rfl
  · dsimp only
    split <;> rfl

theorem cm_exit_idx (data : List Candle) (t : Trade) :
    (calculate_metrics data t).exit_idx = t.exit_idx := by
  unfold calculate_metrics
  cases he : t.exit_idx
  · simp [he]
  · dsimp only
    split <;> simp [he]

theorem cm_exit_time (data : List Candle) (t : Trade) :
    (calculate_metrics data t).exit_time = t.exit_time := by
  unfold calculate_metrics
  cases he : t.exit_idx
  · rfl
  · dsimp only
    split <;> rfl

theorem cm_symbol (data : List Candle) (t : Trade) :
    (calculate_metrics data t).symbol = t.symbol := by
  unfold calculate_metrics
  cases he : t.exit_idx
  · rfl
  · dsimp only
    split <;> rfl

theorem cm_entry_price (data : List Candle) (t : Trade) :
    (calculate_metrics data t).entry_price = t.entry_price := by
  unfold calculate_metrics
  cases he : t.exit_idx
  · rfl
  · dsimp only
    split <;> rfl

theorem cm_entry_idx (data : List Candle) (t : Trade) :
    (calculate_metrics data t).entry_idx = t.entry_idx := by
  unfold calculate_metrics
  cases he : t.exit_idx
  · rfl
  · dsimp only
    split <;> rfl

theorem cm_sl_price (data : List Candle) (t : Trade) :
    (calculate_metrics data t).sl_price = t.sl_price := by
  unfold calculate_metrics
  cases he : t.exit_idx
  · rfl
  · dsimp only
    split <;> rfl

theorem cm_tp_price (data : List Candle) (t : Trade) :
    (calculate_metrics data t).tp_price = t.tp_price := by
  unfold calculate_metrics
  cases he : t.exit_idx
  · rfl
  · dsimp only
    split <;> rfl

theorem cm_trade_id (data : List Candle) (t : Trade) :
    (calculate_metrics data t).trade_id = t.trade_id := by
  unfold calculate_metrics
  cases he : t.exit_idx
  · rfl
  · dsimp only
    split <;> rfl

/-- C4: for every trade closed by close_position on a resident position, the
recorded fields satisfy the spec's formulas: fees_total = size·taker_fee·2,
pnl_usdt = ((entry−exit)/entry)·size − fees_total − slippage_total where
slippage_total is the sum of the entry and exit slippage values stored on the
trade, pnl_percent = pnl_usdt/size·100 and duration_bars = exit_idx −
entry_idx. -/
theorem C4_close_pnl_formula (cfg : StrategyConfig) (data : List Candle)
    (s : SimState) (symbol : String) (idx : ℕ) (price : ℚ) (reason : String)
    (r : ℕ) (hres : dget s.positions symbol = some r) (hr : r < s.heap.length) :
    (hget (close_position cfg data symbol idx price reason s).heap r).position_size
      = (if (hget s.heap r).position_size = 0 then cfg.trade_size_usdt
         else (hget s.heap r).position_size) ∧
    (hget (close_position cfg data symbol idx price reason s).heap r).fees_total
      = some ((hget (close_position cfg data symbol idx price reason s).heap r).position_size
          * cfg.taker_fee * 2) ∧
    (hget (close_position cfg data symbol idx price reason s).heap r).slippage_exit
      = some cfg.slippage ∧
    (hget (close_position cfg data symbol idx price reason s).heap r).slippage_total
      = some ((hget (close_position cfg data symbol idx price reason s).heap r).slippage_entry
          + ((hget (close_position cfg data symbol idx price reason s).heap r).slippage_exit).getD 0) ∧
    (hget (close_position cfg data symbol idx price reason s).heap r).pnl_usdt
      = some ((((hget s.heap r).entry_price - price) / (hget s.heap r).entry_price)
          * (hget (close_position cfg data symbol idx price reason s).heap r).position_size
          - (hget (close_position cfg data symbol idx price reason s).heap r).position_size
              * cfg.taker_fee * 2
          - ((hget (close_position cfg data symbol idx price reason s).heap r).slippage_entry
              + ((hget (close_position cfg data symbol idx price reason s).heap r).slippage_exit).getD 0)) ∧
    (hget (close_position cfg data symbol idx price reason s).heap r).pnl_percent
      = some ((((hget (close_position cfg data symbol idx price reason s).heap r).pnl_usdt).getD 0)
          / (hget (close_position cfg data symbol idx price reason s).heap r).position_size * 100) ∧
    (hget (close_position cfg data symbol idx price reason s).heap r).duration_bars
      = some ((idx : ℤ) - ((hget s.heap r).entry_idx : ℤ)) ∧
    (hget (close_position cfg data symbol idx price reason s).heap r).exit_price = some price ∧
    (hget (close_position cfg data symbol idx price reason s).heap r).exit_reason = some reason ∧
    (hget (close_position cfg data symbol idx price reason s).heap r).exit_idx = some idx := by
  have hc : close_position cfg data symbol idx price reason s =
      { s with
        heap := s.heap.set r (closedTrade cfg data idx price reason (hget s.heap r))
        positions := ddel s.positions symbol } := by
    unfold close_position
    rw [hres]
  rw [hc]
  dsimp only
  rw [hget_set_self hr]
  unfold closedTrade
  dsimp only
  refine ⟨?_, ?_, ?_, ?_, ?_, ?_, ?_, ?_, ?_, ?_⟩ <;>
    simp only [cm_position_size, cm_fees_total, cm_slippage_entry,
      cm_slippage_exit, cm_slippage_total, cm_pnl_usdt, cm_pnl_percent,
      cm_duration_bars, cm_exit_price, cm_exit_reason, cm_exit_idx,
      Option.getD_some] <;>
    first
      | trivial
      | (congr 1; ring)

/-- Witness for C4 on the resident position of `sRes` closed at price 200. -/
theorem C4_close_pnl_formula_witness :
    dget sRes.positions "X" = some 0 ∧ 0 < sRes.heap.length ∧
    (hget (close_position cfgA dataBoth "X" 3 200 "sl" sRes).heap 0).exit_reason
      = some "sl" := by
  have h1 : dget sRes.positions "X" = some 0 := by with_unfolding_all decide
  have h2 : (0 : ℕ) < sRes.heap.length := by with_unfolding_all decide
  exact ⟨h1, h2,
    (C4_close_pnl_formula cfgA dataBoth sRes "X" 3 200 "sl" 0 h1 h2).2.2.2.2.2.2.2.2.1⟩

/-! ### C5: no Blocked state in the backtest watchlist -/

/-- C5 counterexample: at bar 1 the entry reaches its stall threshold while
close (70) ≤ tp_price (78); it is offered as ReadyForEntry anyway (no Blocked
marking exists), the rejection at entry evaluation leaves the watchlist
unchanged, and the entry is offered again at bar 2 with the same local_high
and no new high — refuting both the Blocked marking and "never offered again
until a new local_high appears". -/
theorem C5_counterexample :
    (candleAt dataC5 1).close ≤ itemC5.local_high * (1 - cfgA.tp_percent) ∧
    update_watchlist cfgA dataC5 1 [("X", itemC5)]
      = ([("X", { itemC5 with stall_counter := 2 })],
         [{ itemC5 with stall_counter := 2 }]) ∧
    check_entry_conditions cfgA dataC5 1 { itemC5 with stall_counter := 2 }
        [("X", { itemC5 with stall_counter := 2 })] [] "h0"
      = (none, [("X", { itemC5 with stall_counter := 2 })]) ∧
    (update_watchlist cfgA dataC5 2 [("X", { itemC5 with stall_counter := 2 })]).2
      = [{ itemC5 with stall_counter := 3 }] := by
  with_unfolding_all decide

/-! ### C9: stall readiness timing -/

/-- C9 counterexample: the candidate detected and added at bar 2 already has
its stall counter advanced on bar 2 itself (update_watchlist runs on the
detection bar), so with stall_bars = 2 it is ReadyForEntry at bar 3 — the
FIRST bar after its addition whose high does not exceed local_high — not at
the second such bar. -/
theorem C9_counterexample :
    cfgA.stall_bars = 2 ∧
    scan_for_pumps_numba "X" (fun i => (candleAt dataC9 i).high)
      (fun i => (candleAt dataC9 i).close) 2 cfgA.pump_window cfgA.pump_threshold
      = some itemC9 ∧
    update_watchlist cfgA dataC9 2 (add_to_watchlist [] itemC9)
      = ([("X", { itemC9 with stall_counter := 1 })], []) ∧
    scan_for_pumps_numba "X" (fun i => (candleAt dataC9 i).high)
      (fun i => (candleAt dataC9 i).close) 3 cfgA.pump_window cfgA.pump_threshold
      = none ∧
    (candleAt dataC9 3).high ≤ itemC9.local_high ∧
    (update_watchlist cfgA dataC9 3 [("X", { itemC9 with stall_counter := 1 })]).2
      = [{ itemC9 with stall_counter := 2 }] := by
  with_unfolding_all decide

/-! ### C3: immediate-fill handling on the entry bar -/

/-- C3: SL is checked before TP with the claimed conditions, and an
immediately-filled trade never becomes resident; BUT on the entry bar the
close is a no-op (the trade was never resident, so close_position returns
without recording anything): the trade's exit fields stay unset, diverging
from the claim that it "is closed at sl_price·(1+slippage) with reason sl".
A resident position on a later bar is closed as claimed. -/
theorem C3_entry_bar_fill_divergence :
    (candleAt dataBoth 3).high ≥ tradeP.sl_price ∧
    (candleAt dataBoth 3).low ≤ tradeP.tp_price ∧
    (open_position cfgA dataBoth testClock 0 3 sOP).1 = (false, some "sl_immediate") ∧
    (open_position cfgA dataBoth testClock 0 3 sOP).2.positions = [] ∧
    (hget (open_position cfgA dataBoth testClock 0 3 sOP).2.heap 0).exit_reason = none ∧
    (hget (open_position cfgA dataBoth testClock 0 3 sOP).2.heap 0).exit_price = none ∧
    (hget (open_position cfgA dataBoth testClock 0 3 sOP).2.heap 0).pnl_usdt = none ∧
    (open_position cfgA dataBoth testClock 0 3 sOP).2.risk.trades_history
      = [{ time := "t0", symbol := "X", pnl_usdt := 0, pnl_percent := 0 }] ∧
    (check_positions cfgA dataBoth testClock 3 sRes).1 = [("X", "sl")] ∧
    (hget (check_positions cfgA dataBoth testClock 3 sRes).2.heap 0).exit_reason
      = some "sl" ∧
    (hget (check_positions cfgA dataBoth testClock 3 sRes).2.heap 0).exit_price
      = some (tradeP.sl_price * (1 + cfgA.slippage)) ∧
    (check_positions cfgA dataBoth testClock 3 sRes).2.positions = [] := by
  with_unfolding_all decide

/-! ### C10: frame effect of an immediate fill -/

set_option maxRecDepth 400000 in
/-- C10 counterexample: in the dataTP run the entry at bar 3 fills
immediately (low 70 ≤ tp 78).  The trade is indeed added to no trade list and
capital is unchanged — but, refuting the claim's last clause, its pnl is
never computed (close_position no-ops on the non-resident trade, so every
exit field stays unset) and the RiskManager is notified with pnl 0. -/
theorem C10_counterexample :
    (runLoop cfgA "X" dataTP testUuid testClock (initState cfgA)).2 = [] ∧
    (runLoop cfgA "X" dataTP testUuid testClock (initState cfgA)).1.ptrades = [] ∧
    (runLoop cfgA "X" dataTP testUuid testClock (initState cfgA)).1.all_trades = [] ∧
    (runLoop cfgA "X" dataTP testUuid testClock (initState cfgA)).1.cash = 1000 ∧
    (runLoop cfgA "X" dataTP testUuid testClock (initState cfgA)).1.heap.length = 1 ∧
    (runLoop cfgA "X" dataTP testUuid testClock (initState cfgA)).1.risk.trades_history
      = [{ time := "t0", symbol := "X", pnl_usdt := 0, pnl_percent := 0 }] ∧
    (hget (runLoop cfgA "X" dataTP testUuid testClock (initState cfgA)).1.heap 0).pnl_usdt
      = none ∧
    (hget (runLoop cfgA "X" dataTP testUuid testClock (initState cfgA)).1.heap 0).exit_time
      = none := by
  with_unfolding_all decide

/-! ### Watchlist and entry-evaluation lemmas -/

/-- One bar of update_watchlist on a singleton watchlist whose entry has not
timed out and whose bar does not make a new high: the stall counter
increments by exactly 1 and the entry is offered iff the counter has reached
stall_bars. -/
theorem update_watchlist_singleton (cfg : StrategyConfig) (data : List Candle)
    (idx : ℕ) (sym : String) (it : WatchlistItem)
    (hto : (idx : ℤ) - (it.added_time_idx : ℤ) < (cfg.watchlist_timeout : ℤ))
    (hhi : ¬ (candleAt data idx).high > it.local_high) :
    update_watchlist cfg data idx [(sym, it)] =
      ([(sym, { it with stall_counter := it.stall_counter + 1 })],
       if cfg.stall_bars ≤ it.stall_counter + 1
       then [{ it with stall_counter := it.stall_counter + 1 }] else []) := by
  unfold update_watchlist dkeys
  simp only [List.map, List.foldl]
  unfold update_watchlist_step
  simp only [dget, eq_self_iff_true, if_true, ge_iff_le]
  rw [if_neg (not_le.mpr hto)]
  have ha : advanceItem data idx it = { it with stall_counter := it.stall_counter + 1 } := by
    unfold advanceItem
    rw [if_neg hhi]
  rw [ha]
  simp only [dset, eq_self_iff_true, if_true]
  split <;> simp

/-- check_entry_conditions rejects (and leaves the watchlist untouched) when
the bar's close is at or below the recomputed tp price. -/
theorem check_entry_reject_tp (cfg : StrategyConfig) (data : List Candle)
    (idx : ℕ) (item : WatchlistItem) (wl : List (String × WatchlistItem))
    (positions : List (String × ℕ)) (hex : String)
    (htp : (candleAt data idx).close ≤ item.local_high * (1 - cfg.tp_percent)) :
    check_entry_conditions cfg data idx item wl positions hex = (none, wl) := by
  unfold check_entry_conditions
  by_cases hp : (dget positions item.symbol).isSome
  · rw [if_pos hp]
  · rw [if_neg hp]
    dsimp only
    rw [if_pos htp]

/-- check_entry_conditions accepts when the symbol has no open position and
the close is above the tp price, returning the pending trade and consuming
the watchlist entry. -/
theorem check_entry_accept (cfg : StrategyConfig) (data : List Candle)
    (idx : ℕ) (item : WatchlistItem) (wl : List (String × WatchlistItem))
    (positions : List (String × ℕ)) (hex : String)
    (hp : dget positions item.symbol = none)
    (htp : ¬ (candleAt data idx).close ≤ item.local_high * (1 - cfg.tp_percent)) :
    check_entry_conditions cfg data idx item wl positions hex
      = (some (pendingTrade cfg data idx item hex), ddel wl item.symbol) := by
  unfold check_entry_conditions
  rw [hp]
  dsimp only [Option.isSome]
  rw [if_neg (by simp), if_neg htp]

/-- C5 (amended): the backtest watchlist has no Blocked state: an entry whose
stall counter has reached stall_bars is offered as ReadyForEntry even when
the bar's close is at or below tp_price; the rejection at entry evaluation
leaves the watchlist unchanged; and on the next bar (no timeout, no new
high) the same entry is offered again, with no new local_high required. -/
theorem C5_no_blocked_state (cfg : StrategyConfig) (data : List Candle)
    (sym : String) (it : WatchlistItem) (idx : ℕ)
    (positions : List (String × ℕ)) (hex : String)
    (hto : (idx : ℤ) - (it.added_time_idx : ℤ) < (cfg.watchlist_timeout : ℤ))
    (hhi : ¬ (candleAt data idx).high > it.local_high)
    (hstall : cfg.stall_bars ≤ it.stall_counter + 1)
    (htp : (candleAt data idx).close ≤ it.local_high * (1 - cfg.tp_percent))
    (hto2 : (idx : ℤ) + 1 - (it.added_time_idx : ℤ) < (cfg.watchlist_timeout : ℤ))
    (hhi2 : ¬ (candleAt data (idx + 1)).high > it.local_high) :
    update_watchlist cfg data idx [(sym, it)]
      = ([(sym, { it with stall_counter := it.stall_counter + 1 })],
         [{ it with stall_counter := it.stall_counter + 1 }]) ∧
    check_entry_conditions cfg data idx { it with stall_counter := it.stall_counter + 1 }
        [(sym, { it with stall_counter := it.stall_counter + 1 })] positions hex
      = (none, [(sym, { it with stall_counter := it.stall_counter + 1 })]) ∧
    (update_watchlist cfg data (idx + 1)
        [(sym, { it with stall_counter := it.stall_counter + 1 })]).2
      = [{ it with stall_counter := it.stall_counter + 1 + 1 }] := by
  refine ⟨?_, ?_, ?_⟩
  · rw [update_watchlist_singleton cfg data idx sym it hto hhi, if_pos hstall]
  · exact check_entry_reject_tp cfg data idx _ _ positions hex htp
  · rw [update_watchlist_singleton cfg data (idx + 1) sym
      { it with stall_counter := it.stall_counter + 1 }
      (by dsimp only; push_cast; omega) hhi2]
    rw [if_pos (by dsimp only; omega)]

/-- Witness for C5 on the concrete dataC5 scenario. -/
theorem C5_no_blocked_state_witness :
    (candleAt dataC5 1).close ≤ itemC5.local_high * (1 - cfgA.tp_percent) ∧
    check_entry_conditions cfgA dataC5 1 { itemC5 with stall_counter := 2 }
        [("X", { itemC5 with stall_counter := 2 })] [] "h0"
      = (none, [("X", { itemC5 with stall_counter := 2 })]) := by
  have htp : (candleAt dataC5 1).close ≤ itemC5.local_high * (1 - cfgA.tp_percent) := by
    with_unfolding_all decide
  exact ⟨htp, (C5_no_blocked_state cfgA dataC5 "X" itemC5 1 [] "h0"
    (by with_unfolding_all decide) (by with_unfolding_all decide)
    (by with_unfolding_all decide) htp
    (by with_unfolding_all decide) (by with_unfolding_all decide)).2.1⟩

/-- C9 (amended): with stall_bars = 2, update_watchlist runs on the detection
bar itself and counts it as the first stall bar, so a candidate added at bar
idx (stall counter 0) is not offered on bar idx but is offered ReadyForEntry
on bar idx+1, the FIRST bar after its addition whose high does not exceed
local_high (provided no timeout and no re-detection replaces the entry). -/
theorem C9_stall_ready_first_bar (cfg : StrategyConfig) (data : List Candle)
    (sym : String) (it : WatchlistItem) (idx : ℕ)
    (hsb : cfg.stall_bars = 2)
    (hst : it.stall_counter = 0)
    (hadd : it.added_time_idx = idx)
    (hto : 1 < cfg.watchlist_timeout)
    (hhi : ¬ (candleAt data idx).high > it.local_high)
    (hhi2 : ¬ (candleAt data (idx + 1)).high > it.local_high) :
    update_watchlist cfg data idx [(sym, it)]
      = ([(sym, { it with stall_counter := 1 })], []) ∧
    (update_watchlist cfg data (idx + 1) [(sym, { it with stall_counter := 1 })]).2
      = [{ it with stall_counter := 2 }] := by
  constructor
  · rw [update_watchlist_singleton cfg data idx sym it (by rw [hadd]; omega) hhi]
    rw [hst, if_neg (by omega)]
  · rw [update_watchlist_singleton cfg data (idx + 1) sym { it with stall_counter := 1 }
      (by dsimp only; rw [hadd]; push_cast; omega) hhi2]
    rw [if_pos (by dsimp only; omega)]

/-- Witness for C9 on the concrete dataC9 scenario. -/
theorem C9_stall_ready_first_bar_witness :
    cfgA.stall_bars = 2 ∧ itemC9.added_time_idx = 2 ∧
    (update_watchlist cfgA dataC9 3 [("X", { itemC9 with stall_counter := 1 })]).2
      = [{ itemC9 with stall_counter := 2 }] := by
  refine ⟨by with_unfolding_all decide, by with_unfolding_all decide, ?_⟩
  exact (C9_stall_ready_first_bar cfgA dataC9 "X" itemC9 2
    (by with_unfolding_all decide) (by with_unfolding_all decide) rfl
    (by with_unfolding_all decide) (by with_unfolding_all decide)
    (by with_unfolding_all decide)).2

/-! ### C10: immediate fills leave no trace in the ledger -/

/-- open_position in the immediate-SL case: the call reports failure with
reason "sl_immediate", but — because the pending trade was never resident —
the embedded close_position call is a no-op: positions are untouched, the
heap only receives the position-size update, and the RiskManager is notified
with the trade's (unset, hence 0) pnl. -/
theorem open_position_sl_immediate (cfg : StrategyConfig) (data : List Candle)
    (clock : ℕ → String) (ref idx : ℕ) (s : SimState)
    (hpos : dget s.positions (hget s.heap ref).symbol = none)
    (hsl : (candleAt data idx).high ≥ (hget s.heap ref).sl_price) :
    open_position cfg data clock ref idx s =
      ((false, some "sl_immediate"),
       { s with
         heap := s.heap.set ref
           { hget s.heap ref with
             position_size := get_position_size cfg s.risk (hget s.heap ref).symbol
             entry_fee := get_position_size cfg s.risk (hget s.heap ref).symbol
               * cfg.taker_fee }
         risk := on_trade_result (clock s.clockCtr)
           (((hget s.heap ref).pnl_usdt).getD 0)
           (((hget s.heap ref).pnl_percent).getD 0)
           (hget s.heap ref).symbol s.risk
         clockCtr := s.clockCtr + 1 }) := by
  unfold open_position
  rw [if_pos hsl]
  unfold close_position
  dsimp only
  rw [hpos]
  by_cases hlen : ref < s.heap.length
  · unfold notifyRisk
    rw [hget_set_self (by simpa using hlen)]
  · have hset : s.heap.set ref
        { hget s.heap ref with
          position_size := get_position_size cfg s.risk (hget s.heap ref).symbol
          entry_fee := get_position_size cfg s.risk (hget s.heap ref).symbol
            * cfg.taker_fee } = s.heap := by
      rw [List.set_eq_of_length_le (by omega)]
    unfold notifyRisk
    rw [hset]

/-- Setting the element just past `l` in `l ++ [a]` replaces `a`. -/
theorem set_append_length {α : Type} (l : List α) (a b : α) :
    (l ++ [a]).set l.length b = l ++ [b] := by
  induction l with
  | nil => rfl
  | cons x xs ih => simp [List.set, ih]

/-- on_trade_result appends one history entry when the ring buffer is not
full. -/
theorem on_trade_result_history (time : String) (pu pp : ℚ) (sym : String)
    (r : RiskState) (h : r.trades_history.length < 1000) :
    (on_trade_result time pu pp sym r).trades_history =
      r.trades_history ++
        [{ time := time, symbol := sym, pnl_usdt := pu, pnl_percent := pp }] := by
  unfold on_trade_result update_stats
  dsimp only
  rw [if_neg (by simp; omega)]

/-- open_position in the immediate-TP case. -/
theorem open_position_tp_immediate (cfg : StrategyConfig) (data : List Candle)
    (clock : ℕ → String) (ref idx : ℕ) (s : SimState)
    (hpos : dget s.positions (hget s.heap ref).symbol = none)
    (hsl : ¬ (candleAt data idx).high ≥ (hget s.heap ref).sl_price)
    (htp : (candleAt data idx).low ≤ (hget s.heap ref).tp_price) :
    open_position cfg data clock ref idx s =
      ((false, some "tp_immediate"),
       { s with
         heap := s.heap.set ref
           { hget s.heap ref with
             position_size := get_position_size cfg s.risk (hget s.heap ref).symbol
             entry_fee := get_position_size cfg s.risk (hget s.heap ref).symbol
               * cfg.taker_fee }
         risk := on_trade_result (clock s.clockCtr)
           (((hget s.heap ref).pnl_usdt).getD 0)
           (((hget s.heap ref).pnl_percent).getD 0)
           (hget s.heap ref).symbol s.risk
         clockCtr := s.clockCtr + 1 }) := by
  unfold open_position
  rw [if_neg hsl, if_pos htp]
  unfold close_position
  dsimp only
  rw [hpos]
  by_cases hlen : ref < s.heap.length
  · unfold notifyRisk
    rw [hget_set_self (by simpa using hlen)]
  · have hset : s.heap.set ref
        { hget s.heap ref with
          position_size := get_position_size cfg s.risk (hget s.heap ref).symbol
          entry_fee := get_position_size cfg s.risk (hget s.heap ref).symbol
            * cfg.taker_fee } = s.heap := by
      rw [List.set_eq_of_length_le (by omega)]
    unfold notifyRisk
    rw [hset]

/-- C10 (amended): an entry that fills immediately on its entry bar — with
reason sl_immediate (the bar's high reaches the SL level) or tp_immediate
(the SL level is not reached and the bar's low reaches the TP level) — leaves
the run's ledger untouched: the portfolio's trade list, the aggregate trade
list, the per-symbol trade accumulator and the cash are all unchanged, the
positions map is unchanged (the trade never becomes resident), the allocated
trade's pnl and exit are never computed, and the RiskManager is notified with
pnl_usdt = 0 and pnl_percent = 0. -/
theorem C10_immediate_fill_frame (cfg : StrategyConfig) (data : List Candle)
    (uuid clock : ℕ → String) (idx : ℕ) (s : SimState) (acc2 : List ℕ)
    (item : WatchlistItem)
    (hcash : can_open_position cfg s)
    (hpos : dget s.positions item.symbol = none)
    (htp : ¬ (candleAt data idx).close ≤ item.local_high * (1 - cfg.tp_percent))
    (hfill : (candleAt data idx).high ≥
        (candleAt data idx).close * (1 + cfg.slippage) * cfg.sl_multiplier ∨
      (candleAt data idx).low ≤ item.local_high * (1 - cfg.tp_percent))
    (hhist : s.risk.trades_history.length < 1000) :
    (processReadyItem cfg data uuid clock idx (s, acc2) item).1.ptrades = s.ptrades ∧
    (processReadyItem cfg data uuid clock idx (s, acc2) item).1.all_trades = s.all_trades ∧
    (processReadyItem cfg data uuid clock idx (s, acc2) item).2 = acc2 ∧
    (processReadyItem cfg data uuid clock idx (s, acc2) item).1.cash = s.cash ∧
    (processReadyItem cfg data uuid clock idx (s, acc2) item).1.positions = s.positions ∧
    (hget (processReadyItem cfg data uuid clock idx (s, acc2) item).1.heap
        s.heap.length).pnl_usdt = none ∧
    (hget (processReadyItem cfg data uuid clock idx (s, acc2) item).1.heap
        s.heap.length).exit_time = none ∧
    (hget (processReadyItem cfg data uuid clock idx (s, acc2) item).1.heap
        s.heap.length).exit_reason = none ∧
    (processReadyItem cfg data uuid clock idx (s, acc2) item).1.risk.trades_history
      = s.risk.trades_history ++
        [{ time := clock s.clockCtr, symbol := item.symbol,
           pnl_usdt := 0, pnl_percent := 0 }] := by
  have hce := check_entry_accept cfg data idx item s.wl s.positions
    (uuid s.uuidCtr) hpos htp
  have hp1 : dget
      ({ s with wl := ddel s.wl item.symbol,
                heap := s.heap ++ [pendingTrade cfg data idx item (uuid s.uuidCtr)],
                uuidCtr := s.uuidCtr + 1 } : SimState).positions
      (hget (s.heap ++ [pendingTrade cfg data idx item (uuid s.uuidCtr)])
        s.heap.length).symbol = none := by
    rw [hget_append_length]
    exact hpos
  have heq : processReadyItem cfg data uuid clock idx (s, acc2) item =
      ({ s with
         wl := ddel s.wl item.symbol
         heap := s.heap ++
           [{ pendingTrade cfg data idx item (uuid s.uuidCtr) with
              position_size := get_position_size cfg s.risk item.symbol
              entry_fee := get_position_size cfg s.risk item.symbol * cfg.taker_fee }]
         uuidCtr := s.uuidCtr + 1
         risk := on_trade_result (clock s.clockCtr) 0 0 item.symbol s.risk
         clockCtr := s.clockCtr + 1 }, acc2) := by
    unfold processReadyItem
    rw [if_pos hcash, hce]
    dsimp only
    by_cases hslb : (candleAt data idx).high ≥
        (candleAt data idx).close * (1 + cfg.slippage) * cfg.sl_multiplier
    · have hsl1 : (candleAt data idx).high ≥
          (hget (s.heap ++ [pendingTrade cfg data idx item (uuid s.uuidCtr)])
            s.heap.length).sl_price := by
        rw [hget_append_length]
        exact hslb
      rw [open_position_sl_immediate cfg data clock s.heap.length idx
        { s with wl := ddel s.wl item.symbol,
                 heap := s.heap ++ [pendingTrade cfg data idx item (uuid s.uuidCtr)],
                 uuidCtr := s.uuidCtr + 1 } hp1 hsl1]
      dsimp only
      rw [hget_append_length]
      rw [set_append_length]
      rfl
    · have htp2 := hfill.resolve_left hslb
      have hsl1 : ¬ (candleAt data idx).high ≥
          (hget (s.heap ++ [pendingTrade cfg data idx item (uuid s.uuidCtr)])
            s.heap.length).sl_price := by
        rw [hget_append_length]
        exact hslb
      have htp1 : (candleAt data idx).low ≤
          (hget (s.heap ++ [pendingTrade cfg data idx item (uuid s.uuidCtr)])
            s.heap.length).tp_price := by
        rw [hget_append_length]
        exact htp2
      rw [open_position_tp_immediate cfg data clock s.heap.length idx
        { s with wl := ddel s.wl item.symbol,
                 heap := s.heap ++ [pendingTrade cfg data idx item (uuid s.uuidCtr)],
                 uuidCtr := s.uuidCtr + 1 } hp1 hsl1 htp1]
      dsimp only
      rw [hget_append_length]
      rw [set_append_length]
      rfl
  rw [heq]
  refine ⟨rfl, rfl, rfl, rfl, rfl, ?_, ?_, ?_, ?_⟩
  · rw [hget_append_length]
    rfl
  · rw [hget_append_length]
    rfl
  · rw [hget_append_length]
    rfl
  · exact on_trade_result_history _ _ _ _ _ hhist

/-- Witness for C10, exercising both immediate-fill branches: the dataBoth
entry bar fills sl_immediate, the dataTP entry bar fills tp_immediate. -/
theorem C10_immediate_fill_frame_witness :
    (can_open_position cfgA (initState cfgA) ∧
     (processReadyItem cfgA dataBoth testUuid testClock 3
        (initState cfgA, []) itemC5).1.ptrades = [] ∧
     (processReadyItem cfgA dataBoth testUuid testClock 3
        (initState cfgA, []) itemC5).1.cash = (initState cfgA).cash ∧
     (hget (processReadyItem cfgA dataBoth testUuid testClock 3
        (initState cfgA, []) itemC5).1.heap 0).pnl_usdt = none) ∧
    ((processReadyItem cfgA dataTP testUuid testClock 3
        (initState cfgA, []) itemC5).1.ptrades = [] ∧
     (processReadyItem cfgA dataTP testUuid testClock 3
        (initState cfgA, []) itemC5).1.cash = (initState cfgA).cash ∧
     (hget (processReadyItem cfgA dataTP testUuid testClock 3
        (initState cfgA, []) itemC5).1.heap 0).pnl_usdt = none) := by
  have h1 : can_open_position cfgA (initState cfgA) := by
    with_unfolding_all decide
  have hA := C10_immediate_fill_frame cfgA dataBoth testUuid testClock 3
    (initState cfgA) [] itemC5 h1
    (by with_unfolding_all decide) (by with_unfolding_all decide)
    (Or.inl (by with_unfolding_all decide)) (by with_unfolding_all decide)
  have hB := C10_immediate_fill_frame cfgA dataTP testUuid testClock 3
    (initState cfgA) [] itemC5 h1
    (by with_unfolding_all decide) (by with_unfolding_all decide)
    (Or.inr (by with_unfolding_all decide)) (by with_unfolding_all decide)
  exact ⟨⟨h1, hA.1, hA.2.2.2.1, hA.2.2.2.2.2.1⟩,
    ⟨hB.1, hB.2.2.2.1, hB.2.2.2.2.2.1⟩⟩

/-! ### Ledger machinery: sums, projections and case lemmas -/

theorem dget_mem {α : Type} {d : List (String × α)} {k : String} {v : α}
    (h : dget d k = some v) : (k, v) ∈ d := by
  induction d with
  | nil => simp [dget] at h
  | cons e rest ih =>
      obtain ⟨k', v'⟩ := e
      by_cases he : k' = k
      · subst he
        simp [dget] at h
        simp [h]
      · simp [dget, he] at h
        simp [ih h]

theorem closedSum_nil (h : List Trade) : closedSum h [] = 0 := rfl

theorem closedSum_append (h : List Trade) (l₁ l₂ : List ℕ) :
    closedSum h (l₁ ++ l₂) = closedSum h l₁ + closedSum h l₂ := by
  simp [closedSum]

theorem closedSum_congr {h h' : List Trade} {l : List ℕ}
    (he : ∀ r ∈ l, hget h' r = hget h r) : closedSum h' l = closedSum h l := by
  unfold closedSum
  congr 1
  exact List.map_congr_left (fun r hr => by rw [he r hr])

theorem closedSum_single_open {h : List Trade} {r : ℕ}
    (ho : (hget h r).exit_time = none) : closedSum h [r] = 0 := by
  simp [closedSum, ho]

theorem closedSum_single_closed {h : List Trade} {r : ℕ}
    (hc : ((hget h r).exit_time).isSome) :
    closedSum h [r] = ((hget h r).pnl_usdt).getD 0 := by
  simp [closedSum, hc]

theorem allClosed_append {h : List Trade} {l₁ l₂ : List ℕ} :
    allClosed h (l₁ ++ l₂) ↔ allClosed h l₁ ∧ allClosed h l₂ := by
  unfold allClosed
  simp [or_imp, forall_and]

theorem allClosed_congr {h h' : List Trade} {l : List ℕ}
    (he : ∀ r ∈ l, hget h' r = hget h r) : allClosed h l → allClosed h' l :=
  fun ha r hr => by rw [he r hr]; exact ha r hr

/-- closedTrade field projections. -/
theorem closedTrade_symbol (cfg : StrategyConfig) (data : List Candle)
    (idx : ℕ) (p : ℚ) (rs : String) (t : Trade) :
    (closedTrade cfg data idx p rs t).symbol = t.symbol := by
  unfold closedTrade
  rw [cm_symbol]

theorem closedTrade_exit_time (cfg : StrategyConfig) (data : List Candle)
    (idx : ℕ) (p : ℚ) (rs : String) (t : Trade) :
    (closedTrade cfg data idx p rs t).exit_time
      = some (candleAt data idx).timestamp := by
  unfold closedTrade
  rw [cm_exit_time]

theorem closedTrade_exit_reason (cfg : StrategyConfig) (data : List Candle)
    (idx : ℕ) (p : ℚ) (rs : String) (t : Trade) :
    (closedTrade cfg data idx p rs t).exit_reason = some rs := by
  unfold closedTrade
  rw [cm_exit_reason]

theorem closedTrade_exit_price (cfg : StrategyConfig) (data : List Candle)
    (idx : ℕ) (p : ℚ) (rs : String) (t : Trade) :
    (closedTrade cfg data idx p rs t).exit_price = some p := by
  unfold closedTrade
  rw [cm_exit_price]

theorem closedTrade_exit_idx (cfg : StrategyConfig) (data : List Candle)
    (idx : ℕ) (p : ℚ) (rs : String) (t : Trade) :
    (closedTrade cfg data idx p rs t).exit_idx = some idx := by
  unfold closedTrade
  rw [cm_exit_idx]

/-- A pump candidate carries the scanned symbol. -/
theorem scan_symbol {sym : String} {high close : ℕ → ℚ} {idx w : ℕ} {th : ℚ}
    {item : WatchlistItem}
    (h : scan_for_pumps_numba sym high close idx w th = some item) :
    item.symbol = sym := by
  simp only [scan_for_pumps_numba] at h
  split at h
  · exact absurd h (by simp)
  · cases h
    rfl

/-- check_entry_conditions either rejects, returning the watchlist unchanged,
or accepts with no open position for the symbol, consuming the entry. -/
theorem check_entry_cases (cfg : StrategyConfig) (data : List Candle)
    (idx : ℕ) (item : WatchlistItem) (wl : List (String × WatchlistItem))
    (positions : List (String × ℕ)) (hex : String) :
    check_entry_conditions cfg data idx item wl positions hex = (none, wl) ∨
    (dget positions item.symbol = none ∧
      check_entry_conditions cfg data idx item wl positions hex
        = (some (pendingTrade cfg data idx item hex), ddel wl item.symbol)) := by
  by_cases h1 : (dget positions item.symbol).isSome
  · left
    unfold check_entry_conditions
    rw [if_pos h1]
  · by_cases h2 : (candleAt data idx).close ≤ item.local_high * (1 - cfg.tp_percent)
    · left
      exact check_entry_reject_tp cfg data idx item wl positions hex h2
    · right
      refine ⟨Option.not_isSome_iff_eq_none.mp h1, ?_⟩
      exact check_entry_accept cfg data idx item wl positions hex
        (Option.not_isSome_iff_eq_none.mp h1) h2

/-- open_position when neither level is breached: the trade becomes the
symbol's resident position. -/
theorem open_position_success (cfg : StrategyConfig) (data : List Candle)
    (clock : ℕ → String) (ref idx : ℕ) (s : SimState)
    (hsl : ¬ (candleAt data idx).high ≥ (hget s.heap ref).sl_price)
    (htp : ¬ (candleAt data idx).low ≤ (hget s.heap ref).tp_price) :
    open_position cfg data clock ref idx s =
      ((true, none),
       { s with
         heap := s.heap.set ref
           { hget s.heap ref with
             position_size := get_position_size cfg s.risk (hget s.heap ref).symbol
             entry_fee := get_position_size cfg s.risk (hget s.heap ref).symbol
               * cfg.taker_fee }
         positions := dset s.positions (hget s.heap ref).symbol ref }) := by
  unfold open_position
  rw [if_neg hsl, if_neg htp]

/-- advanceItem never changes the symbol. -/
theorem advanceItem_symbol (data : List Candle) (idx : ℕ)
    (item : WatchlistItem) : (advanceItem data idx item).symbol = item.symbol := by
  unfold advanceItem
  dsimp only
  split <;> rfl

/-- One update_watchlist_step preserves a per-symbol predicate on the
watchlist values and the ready list. -/
theorem update_watchlist_step_symbols (cfg : StrategyConfig)
    (data : List Candle) (idx : ℕ) (P : String → Prop)
    (acc : List (String × WatchlistItem) × List WatchlistItem) (k : String)
    (h1 : ∀ kv ∈ acc.1, P kv.2.symbol) (h2 : ∀ it ∈ acc.2, P it.symbol) :
    (∀ kv ∈ (update_watchlist_step cfg data idx acc k).1, P kv.2.symbol) ∧
    (∀ it ∈ (update_watchlist_step cfg data idx acc k).2, P it.symbol) := by
  unfold update_watchlist_step
  cases hg : dget acc.1 k with
  | none => exact ⟨h1, h2⟩
  | some item =>
      have hPit : P item.symbol := h1 _ (dget_mem hg)
      have hPad : P (advanceItem data idx item).symbol := by
        rw [advanceItem_symbol]
        exact hPit
      dsimp only
      split
      · exact ⟨fun kv hkv => h1 kv (mem_ddel hkv), h2⟩
      · split
        · refine ⟨fun kv hkv => ?_, fun it hit => ?_⟩
          · rcases mem_dset hkv with hm | hm
            · exact h1 _ hm
            · rw [hm]
              exact hPad
          · rcases List.mem_append.mp hit with hm | hm
            · exact h2 _ hm
            · rw [List.mem_singleton.mp hm]
              exact hPad
        · refine ⟨fun kv hkv => ?_, h2⟩
          rcases mem_dset hkv with hm | hm
          · exact h1 _ hm
          · rw [hm]
            exact hPad

/-- update_watchlist preserves a per-symbol predicate on the watchlist and
only offers entries satisfying it. -/
theorem update_watchlist_symbols (cfg : StrategyConfig) (data : List Candle)
    (idx : ℕ) (P : String → Prop) (wl : List (String × WatchlistItem))
    (h : ∀ kv ∈ wl, P kv.2.symbol) :
    (∀ kv ∈ (update_watchlist cfg data idx wl).1, P kv.2.symbol) ∧
    (∀ it ∈ (update_watchlist cfg data idx wl).2, P it.symbol) := by
  unfold update_watchlist
  have hgen : ∀ (ks : List String)
      (acc : List (String × WatchlistItem) × List WatchlistItem),
      (∀ kv ∈ acc.1, P kv.2.symbol) → (∀ it ∈ acc.2, P it.symbol) →
      (∀ kv ∈ (ks.foldl (update_watchlist_step cfg data idx) acc).1, P kv.2.symbol) ∧
      (∀ it ∈ (ks.foldl (update_watchlist_step cfg data idx) acc).2, P it.symbol) := by
    intro ks
    induction ks with
    | nil => exact fun acc ha hb => ⟨ha, hb⟩
    | cons k ks ih =>
        intro acc ha hb
        have hstep := update_watchlist_step_symbols cfg data idx P acc k ha hb
        exact ih _ hstep.1 hstep.2
  exact hgen (dkeys wl) (wl, []) h (by simp)

/-- Extending the heap does not change the ledger sum of valid refs. -/
theorem closedSum_extend (h : List Trade) (l : List ℕ) (t1 : Trade)
    (hl : ∀ r ∈ l, r < h.length) : closedSum (h ++ [t1]) l = closedSum h l :=
  closedSum_congr (fun r hr => hget_append (hl r hr))

/-- Extending the heap preserves closedness of valid refs. -/
theorem allClosed_extend {h : List Trade} {l : List ℕ} (t1 : Trade)
    (hl : ∀ r ∈ l, r < h.length) (hc : allClosed h l) :
    allClosed (h ++ [t1]) l :=
  allClosed_congr (fun r hr => hget_append (hl r hr)) hc

/-- Step (3) of the bar loop preserves the loop invariant. -/
theorem processReadyItem_inv (cfg : StrategyConfig) (data : List Candle)
    (uuid clock : ℕ → String) (idx : ℕ) (sym : String) (s : SimState)
    (acc2 : List ℕ) (item : WatchlistItem) (hsym : item.symbol = sym)
    (h : LoopInv cfg sym s) :
    LoopInv cfg sym (processReadyItem cfg data uuid clock idx (s, acc2) item).1 := by
  obtain ⟨hA, hB, hC, hW⟩ := h
  have hcongr : ∀ (t1 : Trade), ∀ r ∈ s.ptrades,
      hget (s.heap ++ [t1]) r = hget s.heap r :=
    fun t1 r hr => hget_append (hB r hr)
  have hlen : ∀ (t1 : Trade), ∀ r ∈ s.ptrades, r < (s.heap ++ [t1]).length := by
    intro t1 r hr
    have := hB r hr
    simp only [List.length_append, List.length_singleton]
    omega
  unfold processReadyItem
  by_cases hcash : can_open_position cfg s
  · rw [if_pos hcash]
    rcases check_entry_cases cfg data idx item s.wl s.positions (uuid s.uuidCtr)
      with hce | ⟨hpos, hce⟩
    · rw [hce]
      exact ⟨hA, hB, hC, hW⟩
    · rw [hce]
      dsimp only
      have hpe : s.positions = [] ∧ allClosed s.heap s.ptrades := by
        rcases hC with hC | ⟨r, pre, hp, _⟩
        · exact hC
        · exfalso
          rw [hp, hsym] at hpos
          simp [dget] at hpos
      have hWd : ∀ kv ∈ ddel s.wl item.symbol, kv.2.symbol = sym :=
        fun kv hkv => hW kv (mem_ddel hkv)
      have htsym : (hget (s.heap ++ [pendingTrade cfg data idx item (uuid s.uuidCtr)])
          s.heap.length).symbol = item.symbol := by
        rw [hget_append_length]
        rfl
      have hpos1 : dget
          ({ s with wl := ddel s.wl item.symbol,
                    heap := s.heap ++ [pendingTrade cfg data idx item (uuid s.uuidCtr)],
                    uuidCtr := s.uuidCtr + 1 } : SimState).positions
          (hget (s.heap ++ [pendingTrade cfg data idx item (uuid s.uuidCtr)])
            s.heap.length).symbol = none := by
        rw [htsym]
        exact hpos
      by_cases hsl : (candleAt data idx).high ≥
      (hget (s.heap ++ [pendingTrade cfg data idx item (uuid s.uuidCtr)])
        s.heap.length).sl_price
      · rw [open_position_sl_immediate cfg data clock s.heap.length idx
          { s with wl := ddel s.wl item.symbol,
                   heap := s.heap ++ [pendingTrade cfg data idx item (uuid s.uuidCtr)],
                   uuidCtr := s.uuidCtr + 1 } hpos1 hsl]
        dsimp only
        rw [if_neg Bool.false_ne_true]
        dsimp only
        rw [set_append_length]
        refine ⟨?_, hlen _, ?_, hWd⟩
        · dsimp only
          rw [closedSum_extend _ _ _ hB]
          exact hA
        · left
          exact ⟨hpe.1, allClosed_extend _ hB hpe.2⟩
      · by_cases htp : (candleAt data idx).low ≤
          (hget (s.heap ++ [pendingTrade cfg data idx item (uuid s.uuidCtr)])
            s.heap.length).tp_price
        · rw [open_position_tp_immediate cfg data clock s.heap.length idx
            { s with wl := ddel s.wl item.symbol,
                     heap := s.heap ++ [pendingTrade cfg data idx item (uuid s.uuidCtr)],
                     uuidCtr := s.uuidCtr + 1 } hpos1 hsl htp]
          dsimp only
          rw [if_neg Bool.false_ne_true]
          dsimp only
          rw [set_append_length]
          refine ⟨?_, hlen _, ?_, hWd⟩
          · dsimp only
            rw [closedSum_extend _ _ _ hB]
            exact hA
          · left
            exact ⟨hpe.1, allClosed_extend _ hB hpe.2⟩
        · rw [open_position_success cfg data clock s.heap.length idx
            { s with wl := ddel s.wl item.symbol,
                     heap := s.heap ++ [pendingTrade cfg data idx item (uuid s.uuidCtr)],
                     uuidCtr := s.uuidCtr + 1 } hsl htp]
          dsimp only
          rw [if_pos rfl]
          dsimp only
          rw [set_append_length]
          have hopen : ∀ (t1 : Trade), t1.exit_time = none →
              (hget (s.heap ++ [t1]) s.heap.length).exit_time = none := by
            intro t1 h1
            rw [hget_append_length]
            exact h1
          have hext : (hget (s.heap ++ [pendingTrade cfg data idx item (uuid s.uuidCtr)])
              s.heap.length).exit_time = none := by
            rw [hget_append_length]
            rfl
          have h0 : ∀ (t1 : Trade), t1.exit_time = none →
              closedSum (s.heap ++ [t1]) [s.heap.length] = 0 := by
            intro t1 h1
            exact closedSum_single_open (by rw [hget_append_length]; exact h1)
          refine ⟨?_, ?_, ?_, hWd⟩
          · dsimp only
            rw [closedSum_append, closedSum_extend _ _ _ hB, h0]
            · simpa using hA
            · exact hext
          · intro r hr
            simp only [List.length_append, List.length_singleton]
            rcases List.mem_append.mp hr with hm | hm
            · have := hB r hm
              omega
            · rw [List.mem_singleton.mp hm]
              omega
          · right
            refine ⟨s.heap.length, s.ptrades, ?_, rfl, hopen _ hext, ?_, ?_, ?_⟩
            · dsimp only
              rw [hpe.1]
              rw [show (hget (s.heap ++
                  [pendingTrade cfg data idx item (uuid s.uuidCtr)])
                  s.heap.length).symbol = sym from htsym.trans hsym]
              rfl
            · have hsymg : ∀ (t1 : Trade), t1.symbol = sym →
                  (hget (s.heap ++ [t1]) s.heap.length).symbol = sym := by
                intro t1 h1
                rw [hget_append_length]
                exact h1
              exact hsymg _ (htsym.trans hsym)
            · exact allClosed_extend _ hB hpe.2
            · exact fun r' hr' => hB r' hr'
  · rw [if_neg hcash]
    exact ⟨hA, hB, hC, hW⟩

/-! ### Step (4)/(5): TP-SL check and capital update -/

/-- close_position on a resident position, as a state equation. -/
theorem close_position_resident (cfg : StrategyConfig) (data : List Candle)
    (sym : String) (idx : ℕ) (price : ℚ) (reason : String) (s : SimState)
    (r : ℕ) (hdg : dget s.positions sym = some r) :
    close_position cfg data sym idx price reason s =
      { s with
        heap := s.heap.set r (closedTrade cfg data idx price reason (hget s.heap r))
        positions := ddel s.positions sym } := by
  unfold close_position
  rw [hdg]

/-- check_positions on an empty positions map does nothing. -/
theorem check_positions_empty (cfg : StrategyConfig) (data : List Candle)
    (clock : ℕ → String) (idx : ℕ) (s : SimState)
    (hp : s.positions = []) :
    check_positions cfg data clock idx s = ([], s) := by
  unfold check_positions
  rw [hp]
  rfl

/-- check_positions on a singleton resident position whose bar breaches the
SL level. -/
theorem check_positions_singleton_sl (cfg : StrategyConfig)
    (data : List Candle) (clock : ℕ → String) (idx : ℕ) (s : SimState)
    (sym : String) (r : ℕ) (hp : s.positions = [(sym, r)])
    (hsl : (candleAt data idx).high ≥ (hget s.heap r).sl_price) :
    check_positions cfg data clock idx s =
      ([(sym, "sl")],
       notifyRisk clock r (close_position cfg data sym idx
         ((hget s.heap r).sl_price * (1 + cfg.slippage)) "sl" s)) := by
  have hdg : dget s.positions sym = some r := by
    rw [hp]
    simp [dget]
  unfold check_positions
  rw [hp]
  simp only [dkeys, List.map, List.foldl]
  unfold check_positions_step
  dsimp only
  rw [hdg]
  dsimp only
  rw [if_pos hsl]
  simp

/-- check_positions on a singleton resident position whose bar misses the SL
but breaches the TP level. -/
theorem check_positions_singleton_tp (cfg : StrategyConfig)
    (data : List Candle) (clock : ℕ → String) (idx : ℕ) (s : SimState)
    (sym : String) (r : ℕ) (hp : s.positions = [(sym, r)])
    (hsl : ¬ (candleAt data idx).high ≥ (hget s.heap r).sl_price)
    (htp : (candleAt data idx).low ≤ (hget s.heap r).tp_price) :
    check_positions cfg data clock idx s =
      ([(sym, "tp")],
       notifyRisk clock r (close_position cfg data sym idx
         ((hget s.heap r).tp_price * (1 + cfg.slippage)) "tp" s)) := by
  have hdg : dget s.positions sym = some r := by
    rw [hp]
    simp [dget]
  unfold check_positions
  rw [hp]
  simp only [dkeys, List.map, List.foldl]
  unfold check_positions_step
  dsimp only
  rw [hdg]
  dsimp only
  rw [if_neg hsl, if_pos htp]
  simp

/-- check_positions on a singleton resident position that triggers
neither level. -/
theorem check_positions_singleton_none (cfg : StrategyConfig)
    (data : List Candle) (clock : ℕ → String) (idx : ℕ) (s : SimState)
    (sym : String) (r : ℕ) (hp : s.positions = [(sym, r)])
    (hsl : ¬ (candleAt data idx).high ≥ (hget s.heap r).sl_price)
    (htp : ¬ (candleAt data idx).low ≤ (hget s.heap r).tp_price) :
    check_positions cfg data clock idx s = ([], s) := by
  have hdg : dget s.positions sym = some r := by
    rw [hp]
    simp [dget]
  unfold check_positions
  rw [hp]
  simp only [dkeys, List.map, List.foldl]
  unfold check_positions_step
  dsimp only
  rw [hdg]
  dsimp only
  rw [if_neg hsl, if_neg htp]

/-- The reversed portfolio search finds the last trade of the symbol when
that trade is closed. -/
theorem updateCapital_search (h : List Trade) (pt : List ℕ) (sym : String)
    (r : ℕ) (pre : List ℕ) (hpt : pt = pre ++ [r])
    (hsy : (hget h r).symbol = sym)
    (hex : ((hget h r).exit_time).isSome) :
    pt.reverse.find?
      (fun x => (hget h x).symbol == sym && ((hget h x).exit_time).isSome)
      = some r := by
  rw [hpt, List.reverse_append]
  simp only [List.reverse_singleton, List.singleton_append]
  rw [List.find?_cons_of_pos _ (by simp [hsy, hex])]

/-- Closing the resident position at bar idx and settling capital through
the portfolio's reversed search restores the loop invariant. -/
theorem close_and_settle_inv (cfg : StrategyConfig) (data : List Candle)
    (clock : ℕ → String) (idx : ℕ) (sym : String) (s : SimState)
    (r : ℕ) (pre : List ℕ) (price : ℚ) (reason : String)
    (hp : s.positions = [(sym, r)]) (hpt : s.ptrades = pre ++ [r])
    (hopen : (hget s.heap r).exit_time = none)
    (hsymr : (hget s.heap r).symbol = sym)
    (hacpre : allClosed s.heap pre) (hlt : ∀ x ∈ pre, x < r)
    (hA : s.cash = cfg.initial_capital + closedSum s.heap s.ptrades)
    (hB : ∀ x ∈ s.ptrades, x < s.heap.length)
    (hW : ∀ kv ∈ s.wl, kv.2.symbol = sym) :
    LoopInv cfg sym
      (updateCapitalForClosed
        (notifyRisk clock r (close_position cfg data sym idx price reason s)) sym) := by
  have hdg : dget s.positions sym = some r := by
    rw [hp]
    simp [dget]
  have hr : r < s.heap.length := hB r (by rw [hpt]; simp)
  rw [close_position_resident cfg data sym idx price reason s r hdg]
  have hsy2 : (hget (s.heap.set r
      (closedTrade cfg data idx price reason (hget s.heap r))) r).symbol = sym := by
    rw [hget_set_self hr, closedTrade_symbol]
    exact hsymr
  have hex2 : ((hget (s.heap.set r
      (closedTrade cfg data idx price reason (hget s.heap r))) r).exit_time).isSome := by
    rw [hget_set_self hr, closedTrade_exit_time]
    rfl
  unfold notifyRisk
  dsimp only
  unfold updateCapitalForClosed
  dsimp only
  rw [updateCapital_search _ _ sym r pre hpt hsy2 hex2]
  unfold update_capital
  dsimp only
  have hcongr : ∀ x ∈ pre, hget (s.heap.set r
      (closedTrade cfg data idx price reason (hget s.heap r))) x = hget s.heap x :=
    fun x hx => hget_set_ne (by have := hlt x hx; omega) _
  refine ⟨?_, ?_, ?_, hW⟩
  · rw [hpt, closedSum_append, closedSum_congr hcongr,
      closedSum_single_closed hex2, hget_set_self hr]
    rw [hpt, closedSum_append, closedSum_single_open hopen] at hA
    dsimp only
    linarith
  · intro x hx
    rw [List.length_set]
    exact hB x hx
  · left
    constructor
    · rw [hp]
      simp [ddel]
    · rw [hpt]
      intro x hx
      rcases List.mem_append.mp hx with hm | hm
      · rw [hcongr x hm]
        exact hacpre x hm
      · rw [List.mem_singleton.mp hm]
        exact hex2

/-- Steps (4) and (5) of the bar loop preserve the loop invariant. -/
theorem checkAndUpdate_inv (cfg : StrategyConfig) (data : List Candle)
    (clock : ℕ → String) (idx : ℕ) (sym : String) (s : SimState)
    (h : LoopInv cfg sym s) :
    LoopInv cfg sym
      (((check_positions cfg data clock idx s).1.map Prod.fst).foldl
        updateCapitalForClosed (check_positions cfg data clock idx s).2) := by
  obtain ⟨hA, hB, hC, hW⟩ := h
  rcases hC with ⟨hpos, hac⟩ | ⟨r, pre, hp, hpt, hopen, hsymr, hacpre, hlt⟩
  · rw [check_positions_empty cfg data clock idx s hpos]
    exact ⟨hA, hB, Or.inl ⟨hpos, hac⟩, hW⟩
  · by_cases hsl : (candleAt data idx).high ≥ (hget s.heap r).sl_price
    · rw [check_positions_singleton_sl cfg data clock idx s sym r hp hsl]
      dsimp only [List.map, List.foldl]
      exact close_and_settle_inv cfg data clock idx sym s r pre _ "sl"
        hp hpt hopen hsymr hacpre hlt hA hB hW
    · by_cases htp : (candleAt data idx).low ≤ (hget s.heap r).tp_price
      · rw [check_positions_singleton_tp cfg data clock idx s sym r hp hsl htp]
        dsimp only [List.map, List.foldl]
        exact close_and_settle_inv cfg data clock idx sym s r pre _ "tp"
          hp hpt hopen hsymr hacpre hlt hA hB hW
      · rw [check_positions_singleton_none cfg data clock idx s sym r hp hsl htp]
        exact ⟨hA, hB, Or.inr ⟨r, pre, hp, hpt, hopen, hsymr, hacpre, hlt⟩, hW⟩

/-- Step (6): snapshots only touch the equity history and the peak. -/
theorem record_snapshot_inv (cfg : StrategyConfig) (ts : ℤ) (idx : ℕ)
    (sym : String) (s : SimState) (h : LoopInv cfg sym s) :
    LoopInv cfg sym (record_snapshot cfg ts idx s) := by
  obtain ⟨hA, hB, hC, hW⟩ := h
  unfold record_snapshot
  exact ⟨hA, hB, hC, hW⟩

/-- The entry fold over the ready items preserves the loop invariant. -/
theorem processReady_fold_inv (cfg : StrategyConfig) (data : List Candle)
    (uuid clock : ℕ → String) (idx : ℕ) (sym : String)
    (items : List WatchlistItem) (p : SimState × List ℕ)
    (hitems : ∀ it ∈ items, it.symbol = sym) (h : LoopInv cfg sym p.1) :
    LoopInv cfg sym
      ((items.foldl (processReadyItem cfg data uuid clock idx) p).1) := by
  induction items generalizing p with
  | nil => exact h
  | cons it its ih =>
      refine ih (processReadyItem cfg data uuid clock idx p it)
        (fun x hx => hitems x (by simp [hx])) ?_
      exact processReadyItem_inv cfg data uuid clock idx sym p.1 p.2 it
        (hitems it (by simp)) h

/-- The tail of one bar of the loop (steps 2–6) preserves the invariant. -/
theorem stepTail_inv (cfg : StrategyConfig) (data : List Candle)
    (uuid clock : ℕ → String) (idx : ℕ) (sym : String) (s : SimState)
    (acc2 : List ℕ) (h : LoopInv cfg sym s) :
    LoopInv cfg sym
      (if idx % 4 = 0 then
        record_snapshot cfg (candleAt data idx).timestamp idx
          (((check_positions cfg data clock idx
              (((update_watchlist cfg data idx s.wl).2.foldl
                (processReadyItem cfg data uuid clock idx)
                ({ s with wl := (update_watchlist cfg data idx s.wl).1 }, acc2)).1)).1.map
            Prod.fst).foldl updateCapitalForClosed
            (check_positions cfg data clock idx
              (((update_watchlist cfg data idx s.wl).2.foldl
                (processReadyItem cfg data uuid clock idx)
                ({ s with wl := (update_watchlist cfg data idx s.wl).1 }, acc2)).1)).2)
      else
        ((check_positions cfg data clock idx
            (((update_watchlist cfg data idx s.wl).2.foldl
              (processReadyItem cfg data uuid clock idx)
              ({ s with wl := (update_watchlist cfg data idx s.wl).1 }, acc2)).1)).1.map
          Prod.fst).foldl updateCapitalForClosed
          (check_positions cfg data clock idx
            (((update_watchlist cfg data idx s.wl).2.foldl
              (processReadyItem cfg data uuid clock idx)
              ({ s with wl := (update_watchlist cfg data idx s.wl).1 }, acc2)).1)).2) := by
  obtain ⟨hA, hB, hC, hW⟩ := h
  have hsy := update_watchlist_symbols cfg data idx (· = sym) s.wl hW
  have h2 : LoopInv cfg sym
      { s with wl := (update_watchlist cfg data idx s.wl).1 } :=
    ⟨hA, hB, hC, hsy.1⟩
  have h3 := processReady_fold_inv cfg data uuid clock idx sym
    (update_watchlist cfg data idx s.wl).2
    ({ s with wl := (update_watchlist cfg data idx s.wl).1 }, acc2) hsy.2 h2
  have h4 := checkAndUpdate_inv cfg data clock idx sym _ h3
  split
  · exact record_snapshot_inv cfg _ idx sym _ h4
  · exact h4

/-- One full bar of the loop preserves the invariant. -/
theorem stepBar_inv (cfg : StrategyConfig) (sym : String) (data : List Candle)
    (uuid clock : ℕ → String) (acc : SimState × List ℕ) (idx : ℕ)
    (h : LoopInv cfg sym acc.1) :
    LoopInv cfg sym (stepBar cfg sym data uuid clock acc idx).1 := by
  unfold stepBar
  dsimp only
  cases hscan : scan_for_pumps_numba sym (fun i => (candleAt data i).high)
    (fun i => (candleAt data i).close) idx cfg.pump_window cfg.pump_threshold with
  | none => exact stepTail_inv cfg data uuid clock idx sym acc.1 acc.2 h
  | some item =>
      refine stepTail_inv cfg data uuid clock idx sym _ acc.2 ?_
      obtain ⟨hA, hB, hC, hW⟩ := h
      refine ⟨hA, hB, hC, ?_⟩
      intro kv hkv
      rcases mem_dset hkv with hm | hm
      · exact hW _ hm
      · rw [hm]
        exact scan_symbol hscan

/-- The bar loop maintains the invariant from any state satisfying the
ledger condition (watchlist and positions are reset first). -/
theorem runLoop_inv (cfg : StrategyConfig) (sym : String) (data : List Candle)
    (uuid clock : ℕ → String) (s : SimState) (hL : LedgerOk cfg s) :
    LoopInv cfg sym (runLoop cfg sym data uuid clock s).1 := by
  unfold runLoop
  dsimp only
  have h0 : LoopInv cfg sym { s with wl := [], positions := [] } := by
    obtain ⟨hA, hB, hAC⟩ := hL
    exact ⟨hA, hB, Or.inl ⟨rfl, hAC⟩, by simp⟩
  have hfold : ∀ (l : List ℕ) (p : SimState × List ℕ), LoopInv cfg sym p.1 →
      LoopInv cfg sym ((l.foldl (stepBar cfg sym data uuid clock) p).1) := by
    intro l
    induction l with
    | nil => exact fun p h => h
    | cons i is ih =>
        exact fun p h => ih _ (stepBar_inv cfg sym data uuid clock p i h)
  exact hfold _ _ h0

/-- force_close_all on an empty positions map. -/
theorem force_close_empty (cfg : StrategyConfig) (data : List Candle)
    (clock : ℕ → String) (idx : ℕ) (reason : String) (s : SimState)
    (hp : s.positions = []) :
    force_close_all cfg data clock idx reason s = (s, []) := by
  unfold force_close_all
  rw [if_pos hp]

/-- force_close_all on a singleton resident position. -/
theorem force_close_singleton (cfg : StrategyConfig) (data : List Candle)
    (clock : ℕ → String) (idx : ℕ) (reason : String) (s : SimState)
    (sym : String) (r : ℕ) (hp : s.positions = [(sym, r)]) :
    force_close_all cfg data clock idx reason s =
      (notifyRisk clock r (close_position cfg data sym idx
        ((candleAt data idx).close * (1 + cfg.slippage)) reason s), [r]) := by
  have hdg : dget s.positions sym = some r := by
    rw [hp]
    simp [dget]
  unfold force_close_all
  rw [if_neg (by rw [hp]; simp), hp]
  simp only [dkeys, List.map, List.foldl]
  unfold force_close_step
  dsimp only
  rw [hdg]
  simp

/-- End-of-data closure and settlement: positions end empty, the ledger
condition is restored, and every position resident before the close gets an
"eod" exit at bar idx's close price adjusted by slippage. -/
theorem force_and_settle (cfg : StrategyConfig) (data : List Candle)
    (clock : ℕ → String) (idx : ℕ) (sym : String) (s : SimState)
    (h : LoopInv cfg sym s) :
    LedgerOk cfg
      ((force_close_all cfg data clock idx "eod" s).2.foldl update_capital
        (force_close_all cfg data clock idx "eod" s).1) ∧
    ((force_close_all cfg data clock idx "eod" s).2.foldl update_capital
        (force_close_all cfg data clock idx "eod" s).1).positions = [] ∧
    (∀ k r, (k, r) ∈ s.positions →
      (hget ((force_close_all cfg data clock idx "eod" s).2.foldl update_capital
          (force_close_all cfg data clock idx "eod" s).1).heap r).exit_reason
        = some "eod" ∧
      (hget ((force_close_all cfg data clock idx "eod" s).2.foldl update_capital
          (force_close_all cfg data clock idx "eod" s).1).heap r).exit_price
        = some ((candleAt data idx).close * (1 + cfg.slippage)) ∧
      (hget ((force_close_all cfg data clock idx "eod" s).2.foldl update_capital
          (force_close_all cfg data clock idx "eod" s).1).heap r).exit_idx
        = some idx) := by
  obtain ⟨hA, hB, hC, hW⟩ := h
  rcases hC with ⟨hpos, hac⟩ | ⟨r, pre, hp, hpt, hopen, hsymr, hacpre, hlt⟩
  · rw [force_close_empty cfg data clock idx "eod" s hpos]
    refine ⟨⟨hA, hB, hac⟩, hpos, ?_⟩
    intro k x hk
    rw [hpos] at hk
    simp at hk
  · rw [force_close_singleton cfg data clock idx "eod" s sym r hp]
    have hdg : dget s.positions sym = some r := by
      rw [hp]
      simp [dget]
    have hr : r < s.heap.length := hB r (by rw [hpt]; simp)
    rw [close_position_resident cfg data sym idx _ "eod" s r hdg]
    unfold notifyRisk
    dsimp only [List.foldl]
    unfold update_capital
    dsimp only
    have hex2 : ((hget (s.heap.set r
        (closedTrade cfg data idx ((candleAt data idx).close * (1 + cfg.slippage))
          "eod" (hget s.heap r))) r).exit_time).isSome := by
      rw [hget_set_self hr, closedTrade_exit_time]
      rfl
    have hcongr : ∀ x ∈ pre, hget (s.heap.set r
        (closedTrade cfg data idx ((candleAt data idx).close * (1 + cfg.slippage))
          "eod" (hget s.heap r))) x = hget s.heap x :=
      fun x hx => hget_set_ne (by have := hlt x hx; omega) _
    refine ⟨⟨?_, ?_, ?_⟩, ?_, ?_⟩
    · rw [hpt, closedSum_append, closedSum_congr hcongr,
        closedSum_single_closed hex2, hget_set_self hr]
      rw [hpt, closedSum_append, closedSum_single_open hopen] at hA
      dsimp only
      linarith
    · intro x hx
      rw [List.length_set]
      exact hB x hx
    · rw [hpt]
      intro x hx
      rcases List.mem_append.mp hx with hm | hm
      · rw [hcongr x hm]
        exact hacpre x hm
      · rw [List.mem_singleton.mp hm]
        exact hex2
    · rw [hp]
      simp [ddel]
    · intro k x hk
      rw [hp] at hk
      simp at hk
      obtain ⟨hk1, hk2⟩ := hk
      subst hk2
      rw [hget_set_self hr, closedTrade_exit_reason, closedTrade_exit_price,
        closedTrade_exit_idx]
      exact ⟨rfl, rfl, rfl⟩

/-- run_on_symbol restores the ledger condition and ends with no open
positions. -/
theorem run_on_symbol_post (cfg : StrategyConfig) (sym : String)
    (data : List Candle) (uuid clock : ℕ → String) (s : SimState)
    (hL : LedgerOk cfg s) :
    LedgerOk cfg (run_on_symbol cfg sym data uuid clock s).1 ∧
    (run_on_symbol cfg sym data uuid clock s).1.positions = [] := by
  unfold run_on_symbol
  dsimp only
  have h1 := runLoop_inv cfg sym data uuid clock s hL
  have h2 := force_and_settle cfg data clock (data.length - 1) sym _ h1
  exact ⟨h2.1, h2.2.1⟩

/-- The fresh state satisfies the ledger condition. -/
theorem initState_ledger (cfg : StrategyConfig) : LedgerOk cfg (initState cfg) := by
  refine ⟨?_, ?_, ?_⟩
  · show cfg.initial_capital = cfg.initial_capital + closedSum [] []
    rw [closedSum_nil]
    ring
  · intro r hr
    simp [initState] at hr
  · intro r hr
    simp [initState] at hr

/-- The whole sequential run satisfies the ledger condition. -/
theorem run_sequential_ledger (cfg : StrategyConfig)
    (market_data : List (String × List Candle)) (uuid clock : ℕ → String) :
    LedgerOk cfg (run_sequential cfg market_data uuid clock) := by
  unfold run_sequential
  have hfold : ∀ (l : List (String × List Candle)) (s : SimState),
      LedgerOk cfg s →
      LedgerOk cfg
        (l.foldl (fun s p => (run_on_symbol cfg p.1 p.2 uuid clock s).1) s) := by
    intro l
    induction l with
    | nil => exact fun s h => h
    | cons p ps ih =>
        exact fun s h => ih _ (run_on_symbol_post cfg p.1 p.2 uuid clock s h).1
  exact hfold market_data (initState cfg) (initState_ledger cfg)

/-- C1: Capital conservation.  After any completed sequential run the
portfolio's final current_capital equals initial_capital plus the sum of
pnl_usdt over the closed trades of the portfolio's trade list, exactly; and
every trade in that list is closed, so each one's update_capital application
(once at its TP/SL fill, or once at the end-of-data force close) is accounted
for exactly once with no residual discrepancy. -/
theorem C1_capital_conservation (cfg : StrategyConfig)
    (market_data : List (String × List Candle)) (uuid clock : ℕ → String) :
    (run_sequential cfg market_data uuid clock).cash
      = cfg.initial_capital
        + closedSum (run_sequential cfg market_data uuid clock).heap
            (run_sequential cfg market_data uuid clock).ptrades ∧
    allClosed (run_sequential cfg market_data uuid clock).heap
      (run_sequential cfg market_data uuid clock).ptrades := by
  have h := run_sequential_ledger cfg market_data uuid clock
  exact ⟨h.1, h.2.2⟩

/-- C2: End-of-data closure.  After a symbol's bar loop completes (any input
state satisfying the ledger condition), run_on_symbol leaves zero resident
open positions, and every position still resident at the last bar is closed
with reason "eod" at the last bar's close price times (1 + slippage),
recorded at the last bar's index. -/
theorem C2_end_of_data_closure (cfg : StrategyConfig) (sym : String)
    (data : List Candle) (uuid clock : ℕ → String) (s : SimState)
    (hL : LedgerOk cfg s) :
    (run_on_symbol cfg sym data uuid clock s).1.positions = [] ∧
    ∀ k r, (k, r) ∈ (runLoop cfg sym data uuid clock s).1.positions →
      (hget (run_on_symbol cfg sym data uuid clock s).1.heap r).exit_reason
        = some "eod" ∧
      (hget (run_on_symbol cfg sym data uuid clock s).1.heap r).exit_price
        = some ((candleAt data (data.length - 1)).close * (1 + cfg.slippage)) ∧
      (hget (run_on_symbol cfg sym data uuid clock s).1.heap r).exit_idx
        = some (data.length - 1) := by
  unfold run_on_symbol
  dsimp only
  have h1 := runLoop_inv cfg sym data uuid clock s hL
  have h2 := force_and_settle cfg data clock (data.length - 1) sym
    (runLoop cfg sym data uuid clock s).1 h1
  exact ⟨h2.2.1, h2.2.2⟩

set_option maxRecDepth 100000 in
/-- Witness for C2 on the end-of-data fixture. -/
theorem C2_end_of_data_closure_witness :
    (run_on_symbol cfgA "X" dataEod testUuid testClock (initState cfgA)).1.positions
      = [] ∧
    ∀ k r, (k, r) ∈ (runLoop cfgA "X" dataEod testUuid testClock
        (initState cfgA)).1.positions →
      (hget (run_on_symbol cfgA "X" dataEod testUuid testClock
          (initState cfgA)).1.heap r).exit_reason = some "eod" ∧
      (hget (run_on_symbol cfgA "X" dataEod testUuid testClock
          (initState cfgA)).1.heap r).exit_price
        = some ((candleAt dataEod (dataEod.length - 1)).close
            * (1 + cfgA.slippage)) ∧
      (hget (run_on_symbol cfgA "X" dataEod testUuid testClock
          (initState cfgA)).1.heap r).exit_idx
        = some (dataEod.length - 1) :=
  C2_end_of_data_closure cfgA "X" dataEod testUuid testClock (initState cfgA)
    (by with_unfolding_all decide)

/-! ### C7: determinism modulo uuid-derived ids and wall-clock stamps -/

theorem getD_erase (l : List Trade) (r : ℕ) (d : Trade) (hd : eraseId d = d) :
    eraseId (l.getD r d) = (l.map eraseId).getD r d := by
  conv_rhs => rw [← hd]
  rw [List.getD_map]

/-- Heaps equal after id-erasure dereference to id-erased-equal trades. -/
theorem hget_erase {h1 h2 : List Trade}
    (he : h1.map eraseId = h2.map eraseId) (r : ℕ) :
    eraseId (hget h1 r) = eraseId (hget h2 r) := by
  unfold hget
  rw [getD_erase _ _ _ rfl, getD_erase _ _ _ rfl, he]

/-- calculate_metrics never touches the trade id. -/
theorem calculate_metrics_erase (data : List Candle) (t : Trade) :
    eraseId (calculate_metrics data t) = calculate_metrics data (eraseId t) := by
  rcases t with ⟨f1, f2, f3, f4, f5, f6, f7, f8, f9, f10, f11, f12, f13, f14,
    f15, f16, f17, f18, f19, f20, f21, f22, f23, f24, f25, f26, f27, f28, f29⟩
  unfold calculate_metrics eraseId
  dsimp only
  cases f16 with
  | none => rfl
  | some e =>
      dsimp only
      split
      · rfl
      · rfl

/-- close_position's field updates never touch the trade id. -/
theorem closedTrade_erase (cfg : StrategyConfig) (data : List Candle)
    (idx : ℕ) (p : ℚ) (rn : String) (t : Trade) :
    eraseId (closedTrade cfg data idx p rn t)
      = closedTrade cfg data idx p rn (eraseId t) := by
  show eraseId (calculate_metrics data _) = _
  rw [calculate_metrics_erase]
  rfl

/-- The position multiplier reads only coin_stats, which time-erasure
preserves. -/
theorem get_position_multiplier_erase {r1 r2 : RiskState}
    (h : riskErase r1 = riskErase r2) (symbol : String) :
    get_position_multiplier r1 symbol = get_position_multiplier r2 symbol := by
  unfold get_position_multiplier
  have hcs := congrArg RiskState.coin_stats h
  rw [show r1.coin_stats = r2.coin_stats from hcs]

/-- Truncation of the bounded history commutes with time-erasure. -/
theorem hist_trunc_erase {th1 th2 : List HistEntry}
    (hth : th1.map eraseTime = th2.map eraseTime) {e1 e2 : HistEntry}
    (he : eraseTime e1 = eraseTime e2) :
    ((if (th1 ++ [e1]).length > 1000
        then (th1 ++ [e1]).drop ((th1 ++ [e1]).length - 1000)
        else th1 ++ [e1]).map eraseTime)
      = ((if (th2 ++ [e2]).length > 1000
        then (th2 ++ [e2]).drop ((th2 ++ [e2]).length - 1000)
        else th2 ++ [e2]).map eraseTime) := by
  have hlen : th1.length = th2.length := by
    have := congrArg List.length hth
    simpa using this
  have hone : List.map eraseTime [e1] = List.map eraseTime [e2] := by
    simp [he]
  simp only [List.length_append, List.length_singleton, hlen]
  by_cases hc : th2.length + 1 > 1000
  · rw [if_pos hc, if_pos hc, List.map_drop, List.map_drop, List.map_append,
      List.map_append, hth, hone]
  · rw [if_neg hc, if_neg hc, List.map_append, List.map_append, hth, hone]

/-- on_trade_result with possibly different wall-clock stamps but equal pnl
arguments preserves the risk state up to time-erasure. -/
theorem on_trade_result_erase (time1 time2 : String) (p q : ℚ)
    (symbol : String) {r1 r2 : RiskState} (h : riskErase r1 = riskErase r2) :
    riskErase (on_trade_result time1 p q symbol r1)
      = riskErase (on_trade_result time2 p q symbol r2) := by
  rcases r1 with ⟨ic1, cc1, pc1, tp1, cs1, cl1, th1⟩
  rcases r2 with ⟨ic2, cc2, pc2, tp2, cs2, cl2, th2⟩
  simp only [riskErase, RiskState.mk.injEq] at h
  obtain ⟨h1, h2, h3, h4, h5, h6, h7⟩ := h
  subst h1; subst h2; subst h3; subst h4; subst h5; subst h6
  unfold on_trade_result update_stats riskErase
  dsimp only
  simp only [RiskState.mk.injEq, true_and]
  exact hist_trunc_erase h7 rfl

/-- close_position preserves the id/time-erased simulation relation. -/
theorem close_position_rel (cfg : StrategyConfig) (data : List Candle)
    {sym1 sym2 : String} (hs : sym1 = sym2) (idx : ℕ) {p1 p2 : ℚ}
    (hpq : p1 = p2) (rn : String) {s1 s2 : SimState} (h : SimRel s1 s2) :
    SimRel (close_position cfg data sym1 idx p1 rn s1)
      (close_position cfg data sym2 idx p2 rn s2) := by
  subst hs; subst hpq
  obtain ⟨hh, hw, hp, hr, hc, hk, ht, he, ha, hu, hl⟩ := h
  unfold close_position
  rw [hp]
  cases hd : dget s2.positions sym1 with
  | none => exact ⟨hh, hw, hp, hr, hc, hk, ht, he, ha, hu, hl⟩
  | some r =>
      refine ⟨?_, hw, ?_, hr, hc, hk, ht, he, ha, hu, hl⟩
      · dsimp only
        rw [List.map_set, List.map_set, hh, closedTrade_erase, closedTrade_erase,
          hget_erase hh r]
      · dsimp only

/-- The risk notification preserves the relation for any two clock
streams. -/
theorem notifyRisk_rel (c1 c2 : ℕ → String) (r : ℕ) {s1 s2 : SimState}
    (h : SimRel s1 s2) : SimRel (notifyRisk c1 r s1) (notifyRisk c2 r s2) := by
  obtain ⟨hh, hw, hp, hr, hc, hk, ht, he, ha, hu, hl⟩ := h
  have hT := hget_erase hh r
  have hpu' := congrArg Trade.pnl_usdt hT
  have hpu : (hget s1.heap r).pnl_usdt = (hget s2.heap r).pnl_usdt := hpu'
  have hpp' := congrArg Trade.pnl_percent hT
  have hpp : (hget s1.heap r).pnl_percent = (hget s2.heap r).pnl_percent := hpp'
  have hsy' := congrArg Trade.symbol hT
  have hsy : (hget s1.heap r).symbol = (hget s2.heap r).symbol := hsy'
  unfold notifyRisk
  refine ⟨hh, hw, hp, ?_, hc, hk, ht, he, ha, hu, ?_⟩
  · dsimp only
    rw [hpu, hpp, hsy]
    exact on_trade_result_erase _ _ _ _ _ hr
  · dsimp only
    rw [hl]

/-- open_position preserves the relation for any two clock streams, and its
boolean/reason result is identical. -/
theorem open_position_rel (cfg : StrategyConfig) (data : List Candle)
    (c1 c2 : ℕ → String) (ref idx : ℕ) {s1 s2 : SimState} (h : SimRel s1 s2) :
    (open_position cfg data c1 ref idx s1).1
      = (open_position cfg data c2 ref idx s2).1 ∧
    SimRel (open_position cfg data c1 ref idx s1).2
      (open_position cfg data c2 ref idx s2).2 := by
  obtain ⟨hh, hw, hp, hr, hc, hk, ht, he, ha, hu, hl⟩ := h
  have hT := hget_erase hh ref
  have hsym' := congrArg Trade.symbol hT
  have hsym : (hget s1.heap ref).symbol = (hget s2.heap ref).symbol := hsym'
  have hsl' := congrArg Trade.sl_price hT
  have hsl : (hget s1.heap ref).sl_price = (hget s2.heap ref).sl_price := hsl'
  have htp' := congrArg Trade.tp_price hT
  have htp : (hget s1.heap ref).tp_price = (hget s2.heap ref).tp_price := htp'
  have hps : get_position_size cfg s1.risk (hget s1.heap ref).symbol
      = get_position_size cfg s2.risk (hget s2.heap ref).symbol := by
    unfold get_position_size
    rw [hsym, get_position_multiplier_erase hr]
  have hrel' : SimRel
      { s1 with heap := s1.heap.set ref
                  ({ hget s1.heap ref with
                     position_size :=
                       get_position_size cfg s1.risk (hget s1.heap ref).symbol,
                     entry_fee :=
                       get_position_size cfg s1.risk (hget s1.heap ref).symbol
                         * cfg.taker_fee }) }
      { s2 with heap := s2.heap.set ref
                  ({ hget s2.heap ref with
                     position_size :=
                       get_position_size cfg s2.risk (hget s2.heap ref).symbol,
                     entry_fee :=
                       get_position_size cfg s2.risk (hget s2.heap ref).symbol
                         * cfg.taker_fee }) } := by
    refine ⟨?_, hw, hp, hr, hc, hk, ht, he, ha, hu, hl⟩
    dsimp only
    rw [List.map_set, List.map_set, hh, hps]
    congr 1
    show ({ hget s1.heap ref with
              trade_id := "",
              position_size := get_position_size cfg s2.risk (hget s2.heap ref).symbol,
              entry_fee := get_position_size cfg s2.risk (hget s2.heap ref).symbol
                * cfg.taker_fee } : Trade) = _
    have h2 : ∀ (u v : Trade), eraseId u = eraseId v → ∀ (ps : ℚ),
        ({ u with
             trade_id := "",
             position_size := ps,
             entry_fee := ps * cfg.taker_fee } : Trade)
        = { v with
              trade_id := "",
              position_size := ps,
              entry_fee := ps * cfg.taker_fee } := by
      intro u v huv ps
      rcases u with ⟨u1, u2, u3, u4, u5, u6, u7, u8, u9, u10, u11, u12, u13,
        u14, u15, u16, u17, u18, u19, u20, u21, u22, u23, u24, u25, u26, u27,
        u28, u29⟩
      rcases v with ⟨v1, v2, v3, v4, v5, v6, v7, v8, v9, v10, v11, v12, v13,
        v14, v15, v16, v17, v18, v19, v20, v21, v22, v23, v24, v25, v26, v27,
        v28, v29⟩
      simp only [eraseId, Trade.mk.injEq] at huv ⊢
      simp_all
    exact h2 _ _ hT _
  have h1l2 : (hget s1.heap ref).sl_price = (hget s2.heap ref).sl_price := hsl
  unfold open_position
  dsimp only
  by_cases h1 : (candleAt data idx).high ≥ (hget s2.heap ref).sl_price
  · have h1l : (candleAt data idx).high ≥ (hget s1.heap ref).sl_price := by
      rw [hsl]; exact h1
    rw [if_pos h1l, if_pos h1]
    refine ⟨rfl, ?_⟩
    exact notifyRisk_rel c1 c2 ref
      (close_position_rel cfg data hsym idx (by rw [hsl]) "sl" hrel')
  · have h1l : ¬ (candleAt data idx).high ≥ (hget s1.heap ref).sl_price := by
      rw [hsl]; exact h1
    rw [if_neg h1l, if_neg h1]
    by_cases h2 : (candleAt data idx).low ≤ (hget s2.heap ref).tp_price
    · have h2l : (candleAt data idx).low ≤ (hget s1.heap ref).tp_price := by
        rw [htp]; exact h2
      rw [if_pos h2l, if_pos h2]
      refine ⟨rfl, ?_⟩
      exact notifyRisk_rel c1 c2 ref
        (close_position_rel cfg data hsym idx (by rw [htp]) "tp" hrel')
    · have h2l : ¬ (candleAt data idx).low ≤ (hget s1.heap ref).tp_price := by
        rw [htp]; exact h2
      rw [if_neg h2l, if_neg h2]
      refine ⟨rfl, ?_⟩
      obtain ⟨hh', hw', hp', hr', hc', hk', ht', he', ha', hu', hl'⟩ := hrel'
      refine ⟨hh', hw', ?_, hr', hc', hk', ht', he', ha', hu', hl'⟩
      dsimp only
      rw [hp, hsym]

/-- One check_positions step preserves the relation and its closed-symbol
output. -/
theorem check_positions_step_rel (cfg : StrategyConfig) (data : List Candle)
    (c1 c2 : ℕ → String) (idx : ℕ)
    {a1 a2 : List (String × String) × SimState} (h1 : a1.1 = a2.1)
    (h2 : SimRel a1.2 a2.2) (symbol : String) :
    (check_positions_step cfg data c1 idx a1 symbol).1
      = (check_positions_step cfg data c2 idx a2 symbol).1 ∧
    SimRel (check_positions_step cfg data c1 idx a1 symbol).2
      (check_positions_step cfg data c2 idx a2 symbol).2 := by
  obtain ⟨hh, hw, hp, hr, hc, hk, ht, he, ha, hu, hl⟩ := h2
  unfold check_positions_step
  rw [hp]
  cases hd : dget a2.2.positions symbol with
  | none => exact ⟨h1, hh, hw, hp, hr, hc, hk, ht, he, ha, hu, hl⟩
  | some r =>
      dsimp only
      have hT := hget_erase hh r
      have hsl' := congrArg Trade.sl_price hT
      have hsl : (hget a1.2.heap r).sl_price = (hget a2.2.heap r).sl_price := hsl'
      have htp' := congrArg Trade.tp_price hT
      have htp : (hget a1.2.heap r).tp_price = (hget a2.2.heap r).tp_price := htp'
      by_cases hb1 : (candleAt data idx).high ≥ (hget a2.2.heap r).sl_price
      · rw [if_pos (by rw [hsl]; exact hb1), if_pos hb1]
        refine ⟨by rw [h1], ?_⟩
        exact notifyRisk_rel c1 c2 r (close_position_rel cfg data rfl idx
          (by rw [hsl]) "sl" ⟨hh, hw, hp, hr, hc, hk, ht, he, ha, hu, hl⟩)
      · rw [if_neg (by rw [hsl]; exact hb1), if_neg hb1]
        by_cases hb2 : (candleAt data idx).low ≤ (hget a2.2.heap r).tp_price
        · rw [if_pos (by rw [htp]; exact hb2), if_pos hb2]
          refine ⟨by rw [h1], ?_⟩
          exact notifyRisk_rel c1 c2 r (close_position_rel cfg data rfl idx
            (by rw [htp]) "tp" ⟨hh, hw, hp, hr, hc, hk, ht, he, ha, hu, hl⟩)
        · rw [if_neg (by rw [htp]; exact hb2), if_neg hb2]
          exact ⟨h1, hh, hw, hp, hr, hc, hk, ht, he, ha, hu, hl⟩

/-- check_positions preserves the relation and its closed-symbol output. -/
theorem check_positions_rel (cfg : StrategyConfig) (data : List Candle)
    (c1 c2 : ℕ → String) (idx : ℕ) {s1 s2 : SimState} (h : SimRel s1 s2) :
    (check_positions cfg data c1 idx s1).1
      = (check_positions cfg data c2 idx s2).1 ∧
    SimRel (check_positions cfg data c1 idx s1).2
      (check_positions cfg data c2 idx s2).2 := by
  unfold check_positions
  rw [show s1.positions = s2.positions from h.2.2.1]
  have hfold : ∀ (keys : List String)
      (a1 a2 : List (String × String) × SimState), a1.1 = a2.1 →
      SimRel a1.2 a2.2 →
      (keys.foldl (check_positions_step cfg data c1 idx) a1).1
        = (keys.foldl (check_positions_step cfg data c2 idx) a2).1 ∧
      SimRel (keys.foldl (check_positions_step cfg data c1 idx) a1).2
        (keys.foldl (check_positions_step cfg data c2 idx) a2).2 := by
    intro keys
    induction keys with
    | nil => exact fun a1 a2 e1 e2 => ⟨e1, e2⟩
    | cons k ks ih =>
        intro a1 a2 e1 e2
        obtain ⟨f1, f2⟩ := check_positions_step_rel cfg data c1 c2 idx e1 e2 k
        exact ih _ _ f1 f2
  exact hfold _ ([], s1) ([], s2) rfl h

/-- The post-close capital search reads only id-independent trade fields. -/
theorem updateCapitalForClosed_rel (symbol : String) {s1 s2 : SimState}
    (h : SimRel s1 s2) :
    SimRel (updateCapitalForClosed s1 symbol)
      (updateCapitalForClosed s2 symbol) := by
  obtain ⟨hh, hw, hp, hr, hc, hk, ht, he, ha, hu, hl⟩ := h
  have hpred : (fun r => (hget s1.heap r).symbol == symbol
        && ((hget s1.heap r).exit_time).isSome)
      = (fun r => (hget s2.heap r).symbol == symbol
        && ((hget s2.heap r).exit_time).isSome) := by
    funext r
    have hT := hget_erase hh r
    have e1 := congrArg Trade.symbol hT
    have e2 := congrArg Trade.exit_time hT
    rw [show (hget s1.heap r).symbol = (hget s2.heap r).symbol from e1,
        show (hget s1.heap r).exit_time = (hget s2.heap r).exit_time from e2]
  unfold updateCapitalForClosed
  rw [ht, hpred]
  cases hd : s2.ptrades.reverse.find? (fun r => (hget s2.heap r).symbol == symbol
      && ((hget s2.heap r).exit_time).isSome) with
  | none => exact ⟨hh, hw, hp, hr, hc, hk, ht, he, ha, hu, hl⟩
  | some r =>
      unfold update_capital
      have hT := hget_erase hh r
      have hpn' := congrArg Trade.pnl_usdt hT
      have hpn : (hget s1.heap r).pnl_usdt = (hget s2.heap r).pnl_usdt := hpn'
      refine ⟨hh, hw, hp, hr, ?_, ?_, ht, he, ha, hu, hl⟩
      · dsimp only
        rw [hc, hpn]
      · dsimp only
        rw [hc, hk, hpn]

/-- record_snapshot reads only id-independent state and so preserves the
relation. -/
theorem record_snapshot_rel (cfg : StrategyConfig) (ts : ℤ) (idx : ℕ)
    {s1 s2 : SimState} (h : SimRel s1 s2) :
    SimRel (record_snapshot cfg ts idx s1) (record_snapshot cfg ts idx s2) := by
  obtain ⟨hh, hw, hp, hr, hc, hk, ht, he, ha, hu, hl⟩ := h
  have heq : get_total_equity s1 = get_total_equity s2 := by
    unfold get_total_equity
    have hfun : (fun (acc : ℚ) r =>
          if (hget s1.heap r).exit_time = none
          then acc + ((hget s1.heap r).pnl_usdt).getD 0 else acc)
        = (fun (acc : ℚ) r =>
          if (hget s2.heap r).exit_time = none
          then acc + ((hget s2.heap r).pnl_usdt).getD 0 else acc) := by
      funext acc r
      have hT := hget_erase hh r
      have e1 := congrArg Trade.exit_time hT
      have e2 := congrArg Trade.pnl_usdt hT
      rw [show (hget s1.heap r).exit_time = (hget s2.heap r).exit_time from e1,
          show (hget s1.heap r).pnl_usdt = (hget s2.heap r).pnl_usdt from e2]
    rw [hc, ht, hfun]
  have hcnt : (s1.ptrades.filter
        (fun r => (hget s1.heap r).exit_time = none)).length
      = (s2.ptrades.filter
        (fun r => (hget s2.heap r).exit_time = none)).length := by
    have hfun : (fun r => decide ((hget s1.heap r).exit_time = none))
        = (fun r => decide ((hget s2.heap r).exit_time = none)) := by
      funext r
      have hT := hget_erase hh r
      have e1 := congrArg Trade.exit_time hT
      rw [show (hget s1.heap r).exit_time = (hget s2.heap r).exit_time from e1]
    show (s1.ptrades.filter
        (fun r => decide ((hget s1.heap r).exit_time = none))).length = _
    rw [ht, hfun]
  unfold record_snapshot
  refine ⟨hh, hw, hp, hr, hc, ?_, ht, ?_, ha, hu, hl⟩
  · dsimp only
    rw [hk, heq]
  · dsimp only
    rw [he, heq, hc, hcnt, hk]

/-- The pending trade differs between two uuid draws only in its trade id. -/
theorem pendingTrade_erase (cfg : StrategyConfig) (data : List Candle)
    (idx : ℕ) (item : WatchlistItem) (hex1 hex2 : String) :
    eraseId (pendingTrade cfg data idx item hex1)
      = eraseId (pendingTrade cfg data idx item hex2) := rfl

/-- Entry evaluation with two uuid draws: identical watchlist result and
id-erased-equal optional trade. -/
theorem check_entry_rel (cfg : StrategyConfig) (data : List Candle) (idx : ℕ)
    (item : WatchlistItem) (wl : List (String × WatchlistItem))
    (positions : List (String × ℕ)) (hex1 hex2 : String) :
    (check_entry_conditions cfg data idx item wl positions hex1).2
      = (check_entry_conditions cfg data idx item wl positions hex2).2 ∧
    ((check_entry_conditions cfg data idx item wl positions hex1).1).map eraseId
      = ((check_entry_conditions cfg data idx item wl positions hex2).1).map
          eraseId := by
  unfold check_entry_conditions
  by_cases hc1 : (dget positions item.symbol).isSome = true
  · rw [if_pos hc1, if_pos hc1]
    exact ⟨rfl, rfl⟩
  · rw [if_neg hc1, if_neg hc1]
    dsimp only
    by_cases hc2 : (candleAt data idx).close ≤ item.local_high * (1 - cfg.tp_percent)
    · rw [if_pos hc2, if_pos hc2]
      exact ⟨rfl, rfl⟩
    · rw [if_neg hc2, if_neg hc2]
      refine ⟨rfl, ?_⟩
      exact congrArg some (pendingTrade_erase cfg data idx item hex1 hex2)

/-- Entry processing for one ready item preserves the relation and emits the
same symbol_trades refs. -/
theorem processReadyItem_rel (cfg : StrategyConfig) (data : List Candle)
    (u1 c1 u2 c2 : ℕ → String) (idx : ℕ) {a1 a2 : SimState × List ℕ}
    (h : SimRel a1.1 a2.1) (h2 : a1.2 = a2.2) (item : WatchlistItem) :
    SimRel (processReadyItem cfg data u1 c1 idx a1 item).1
      (processReadyItem cfg data u2 c2 idx a2 item).1 ∧
    (processReadyItem cfg data u1 c1 idx a1 item).2
      = (processReadyItem cfg data u2 c2 idx a2 item).2 := by
  obtain ⟨hh, hw, hp, hr, hc, hk, ht, he, ha, hu, hl⟩ := h
  unfold processReadyItem
  dsimp only
  by_cases hcash : can_open_position cfg a1.1
  · have hcash2 : can_open_position cfg a2.1 := by
      unfold can_open_position at hcash ⊢
      rw [← hc]
      exact hcash
    rw [if_pos hcash, if_pos hcash2]
    obtain ⟨hwl', hopt⟩ := check_entry_rel cfg data idx item a1.1.wl
      a1.1.positions (u1 a1.1.uuidCtr) (u2 a2.1.uuidCtr)
    rw [hw, hp] at hwl' hopt
    cases he1 : check_entry_conditions cfg data idx item a2.1.wl
        a2.1.positions (u1 a1.1.uuidCtr) with
    | mk o1 w1 =>
    cases he2 : check_entry_conditions cfg data idx item a2.1.wl
        a2.1.positions (u2 a2.1.uuidCtr) with
    | mk o2 w2 =>
    rw [he1, he2] at hwl' hopt
    dsimp only at hwl' hopt
    rw [show (check_entry_conditions cfg data idx item a1.1.wl a1.1.positions
        (u1 a1.1.uuidCtr)) = (o1, w1) by rw [hw, hp]; exact he1]
    cases o1 with
    | none =>
        cases o2 with
        | some t2 => simp at hopt
        | none =>
            refine ⟨⟨hh, ?_, hp, hr, hc, hk, ht, he, ha, hu, hl⟩, h2⟩
            dsimp only
            exact hwl'
    | some t1 =>
        cases o2 with
        | none => simp at hopt
        | some t2 =>
            simp only [Option.map_some', Option.some.injEq] at hopt
            dsimp only
            have hlen : a1.1.heap.length = a2.1.heap.length := by
              have := congrArg List.length hh
              simpa using this
            rw [← hlen]
            have hrel2 : SimRel
                { heap := a1.1.heap ++ [t1], wl := w1,
                  positions := a1.1.positions, risk := a1.1.risk,
                  cash := a1.1.cash, peak := a1.1.peak,
                  ptrades := a1.1.ptrades,
                  equity_history := a1.1.equity_history,
                  all_trades := a1.1.all_trades,
                  uuidCtr := a1.1.uuidCtr + 1, clockCtr := a1.1.clockCtr }
                { heap := a2.1.heap ++ [t2], wl := w2,
                  positions := a2.1.positions, risk := a2.1.risk,
                  cash := a2.1.cash, peak := a2.1.peak,
                  ptrades := a2.1.ptrades,
                  equity_history := a2.1.equity_history,
                  all_trades := a2.1.all_trades,
                  uuidCtr := a2.1.uuidCtr + 1, clockCtr := a2.1.clockCtr } := by
              refine ⟨?_, ?_, hp, hr, hc, hk, ht, he, ha, ?_, hl⟩
              · dsimp only
                rw [List.map_append, List.map_append, hh]
                simp [hopt]
              · dsimp only
                exact hwl'
              · dsimp only
                rw [hu]
            obtain ⟨f1, f2⟩ := open_position_rel cfg data c1 c2
              a1.1.heap.length idx hrel2
            by_cases hbb : (open_position cfg data c2 a1.1.heap.length idx
                { heap := a2.1.heap ++ [t2], wl := w2,
                  positions := a2.1.positions, risk := a2.1.risk,
                  cash := a2.1.cash, peak := a2.1.peak,
                  ptrades := a2.1.ptrades,
                  equity_history := a2.1.equity_history,
                  all_trades := a2.1.all_trades,
                  uuidCtr := a2.1.uuidCtr + 1,
                  clockCtr := a2.1.clockCtr }).1.1 = true
            · have hbb1 : (open_position cfg data c1 a1.1.heap.length idx
                  { heap := a1.1.heap ++ [t1], wl := w1,
                    positions := a1.1.positions, risk := a1.1.risk,
                    cash := a1.1.cash, peak := a1.1.peak,
                    ptrades := a1.1.ptrades,
                    equity_history := a1.1.equity_history,
                    all_trades := a1.1.all_trades,
                    uuidCtr := a1.1.uuidCtr + 1,
                    clockCtr := a1.1.clockCtr }).1.1 = true := by
                rw [f1]
                exact hbb
              rw [if_pos hbb1, if_pos hbb]
              obtain ⟨g1, g2, g3, g4, g5, g6, g7, g8, g9, g10, g11⟩ := f2
              refine ⟨⟨g1, g2, g3, g4, g5, g6, ?_, g8, ?_, g10, g11⟩, ?_⟩
              · dsimp only
                rw [g7]
              · dsimp only
                rw [g9]
              · dsimp only
                rw [h2]
            · have hbb1 : ¬ (open_position cfg data c1 a1.1.heap.length idx
                  { heap := a1.1.heap ++ [t1], wl := w1,
                    positions := a1.1.positions, risk := a1.1.risk,
                    cash := a1.1.cash, peak := a1.1.peak,
                    ptrades := a1.1.ptrades,
                    equity_history := a1.1.equity_history,
                    all_trades := a1.1.all_trades,
                    uuidCtr := a1.1.uuidCtr + 1,
                    clockCtr := a1.1.clockCtr }).1.1 = true := by
                rw [f1]
                exact hbb
              rw [if_neg hbb1, if_neg hbb]
              exact ⟨f2, h2⟩
  · have hcash2 : ¬ can_open_position cfg a2.1 := by
      unfold can_open_position at hcash ⊢
      rw [← hc]
      exact hcash
    rw [if_neg hcash, if_neg hcash2]
    exact ⟨⟨hh, hw, hp, hr, hc, hk, ht, he, ha, hu, hl⟩, h2⟩

/-- Replacing the watchlist with equal values preserves the relation. -/
theorem setWl_rel {s1 s2 : SimState} (h : SimRel s1 s2)
    {w1 w2 : List (String × WatchlistItem)} (hww : w1 = w2) :
    SimRel { s1 with wl := w1 } { s2 with wl := w2 } := by
  obtain ⟨hh, hw, hp, hr, hc, hk, ht, he, ha, hu, hl⟩ := h
  exact ⟨hh, hww, hp, hr, hc, hk, ht, he, ha, hu, hl⟩

/-- The entry fold preserves the relation and the symbol_trades output. -/
theorem processReady_fold_rel (cfg : StrategyConfig) (data : List Candle)
    (u1 c1 u2 c2 : ℕ → String) (idx : ℕ)
    (items1 items2 : List WatchlistItem) (hi : items1 = items2)
    (p1 p2 : SimState × List ℕ) (h : SimRel p1.1 p2.1) (h2 : p1.2 = p2.2) :
    SimRel ((items1.foldl (processReadyItem cfg data u1 c1 idx) p1)).1
      ((items2.foldl (processReadyItem cfg data u2 c2 idx) p2)).1 ∧
    ((items1.foldl (processReadyItem cfg data u1 c1 idx) p1)).2
      = ((items2.foldl (processReadyItem cfg data u2 c2 idx) p2)).2 := by
  subst hi
  induction items1 generalizing p1 p2 with
  | nil => exact ⟨h, h2⟩
  | cons it its ih =>
      obtain ⟨f1, f2⟩ := processReadyItem_rel cfg data u1 c1 u2 c2 idx h h2 it
      exact ih _ _ f1 f2

/-- The post-close capital fold preserves the relation. -/
theorem updcap_fold_rel (l1 l2 : List String) (hl : l1 = l2)
    {s1 s2 : SimState} (h : SimRel s1 s2) :
    SimRel (l1.foldl updateCapitalForClosed s1)
      (l2.foldl updateCapitalForClosed s2) := by
  subst hl
  induction l1 generalizing s1 s2 with
  | nil => exact h
  | cons x xs ih => exact ih (updateCapitalForClosed_rel x h)

/-- Steps (2)–(6) of one bar preserve the relation and the symbol_trades
output for any two uuid/clock streams. -/
theorem stepTail_rel (cfg : StrategyConfig) (data : List Candle)
    (u1 c1 u2 c2 : ℕ → String) (idx : ℕ) {S1 S2 : SimState}
    (hS : SimRel S1 S2) {t1 t2 : List ℕ} (hT : t1 = t2) :
    SimRel (stepTail cfg data u1 c1 idx S1 t1).1
      (stepTail cfg data u2 c2 idx S2 t2).1 ∧
    (stepTail cfg data u1 c1 idx S1 t1).2
      = (stepTail cfg data u2 c2 idx S2 t2).2 := by
  have hwleq : S1.wl = S2.wl := hS.2.1
  have hueq : update_watchlist cfg data idx S1.wl
      = update_watchlist cfg data idx S2.wl := by rw [hwleq]
  have hs' : SimRel { S1 with wl := (update_watchlist cfg data idx S1.wl).1 }
      { S2 with wl := (update_watchlist cfg data idx S2.wl).1 } :=
    setWl_rel hS (congrArg Prod.fst hueq)
  obtain ⟨hP1, hP2⟩ := processReady_fold_rel cfg data u1 c1 u2 c2 idx
    (update_watchlist cfg data idx S1.wl).2 (update_watchlist cfg data idx S2.wl).2
    (congrArg Prod.snd hueq)
    ({ S1 with wl := (update_watchlist cfg data idx S1.wl).1 }, t1)
    ({ S2 with wl := (update_watchlist cfg data idx S2.wl).1 }, t2) hs' hT
  obtain ⟨hr1, hr2⟩ := check_positions_rel cfg data c1 c2 idx hP1
  have hF := updcap_fold_rel _ _ (congrArg (List.map Prod.fst) hr1) hr2
  unfold stepTail
  dsimp only
  by_cases hsnap : idx % 4 = 0
  · rw [if_pos hsnap, if_pos hsnap]
    exact ⟨record_snapshot_rel cfg (candleAt data idx).timestamp idx hF, hP2⟩
  · rw [if_neg hsnap, if_neg hsnap]
    exact ⟨hF, hP2⟩

/-- One bar of the loop preserves the relation and the symbol_trades
output. -/
theorem stepBar_rel (cfg : StrategyConfig) (symbol : String)
    (data : List Candle) (u1 c1 u2 c2 : ℕ → String)
    {a1 a2 : SimState × List ℕ} (h : SimRel a1.1 a2.1) (h2 : a1.2 = a2.2)
    (idx : ℕ) :
    SimRel (stepBar cfg symbol data u1 c1 a1 idx).1
      (stepBar cfg symbol data u2 c2 a2 idx).1 ∧
    (stepBar cfg symbol data u1 c1 a1 idx).2
      = (stepBar cfg symbol data u2 c2 a2 idx).2 := by
  cases hscan : scan_for_pumps_numba symbol (fun i => (candleAt data i).high)
      (fun i => (candleAt data i).close) idx cfg.pump_window
      cfg.pump_threshold with
  | none =>
      have e1 : stepBar cfg symbol data u1 c1 a1 idx
          = stepTail cfg data u1 c1 idx a1.1 a1.2 := by
        unfold stepBar stepTail
        dsimp only
        rw [hscan]
      have e2 : stepBar cfg symbol data u2 c2 a2 idx
          = stepTail cfg data u2 c2 idx a2.1 a2.2 := by
        unfold stepBar stepTail
        dsimp only
        rw [hscan]
      rw [e1, e2]
      exact stepTail_rel cfg data u1 c1 u2 c2 idx h h2
  | some item =>
      have e1 : stepBar cfg symbol data u1 c1 a1 idx
          = stepTail cfg data u1 c1 idx
              { a1.1 with wl := add_to_watchlist a1.1.wl item } a1.2 := by
        unfold stepBar stepTail
        dsimp only
        rw [hscan]
      have e2 : stepBar cfg symbol data u2 c2 a2 idx
          = stepTail cfg data u2 c2 idx
              { a2.1 with wl := add_to_watchlist a2.1.wl item } a2.2 := by
        unfold stepBar stepTail
        dsimp only
        rw [hscan]
      rw [e1, e2]
      refine stepTail_rel cfg data u1 c1 u2 c2 idx ?_ h2
      exact setWl_rel h (by rw [h.2.1])

/-- The relation is reflexive. -/
theorem SimRel_refl (s : SimState) : SimRel s s :=
  ⟨rfl, rfl, rfl, rfl, rfl, rfl, rfl, rfl, rfl, rfl, rfl⟩

/-- The bar loop preserves the relation and the symbol_trades output. -/
theorem runLoop_rel (cfg : StrategyConfig) (sym : String) (data : List Candle)
    (u1 c1 u2 c2 : ℕ → String) {s1 s2 : SimState} (h : SimRel s1 s2) :
    SimRel (runLoop cfg sym data u1 c1 s1).1 (runLoop cfg sym data u2 c2 s2).1 ∧
    (runLoop cfg sym data u1 c1 s1).2 = (runLoop cfg sym data u2 c2 s2).2 := by
  unfold runLoop
  dsimp only
  have h0 : SimRel { s1 with wl := [], positions := [] }
      { s2 with wl := [], positions := [] } := by
    obtain ⟨hh, hw, hp, hr, hc, hk, ht, he, ha, hu, hl⟩ := h
    exact ⟨hh, rfl, rfl, hr, hc, hk, ht, he, ha, hu, hl⟩
  have hfold : ∀ (l : List ℕ) (p1 p2 : SimState × List ℕ),
      SimRel p1.1 p2.1 → p1.2 = p2.2 →
      SimRel ((l.foldl (stepBar cfg sym data u1 c1) p1)).1
        ((l.foldl (stepBar cfg sym data u2 c2) p2)).1 ∧
      ((l.foldl (stepBar cfg sym data u1 c1) p1)).2
        = ((l.foldl (stepBar cfg sym data u2 c2) p2)).2 := by
    intro l
    induction l with
    | nil => exact fun p1 p2 e1 e2 => ⟨e1, e2⟩
    | cons i is ih =>
        intro p1 p2 e1 e2
        obtain ⟨f1, f2⟩ := stepBar_rel cfg sym data u1 c1 u2 c2 e1 e2 i
        exact ih _ _ f1 f2
  exact hfold _ _ _ h0 rfl

/-- One force-close step preserves the relation and the ref output. -/
theorem force_close_step_rel (cfg : StrategyConfig) (data : List Candle)
    (c1 c2 : ℕ → String) (idx : ℕ) (reason : String)
    {a1 a2 : SimState × List ℕ} (h : SimRel a1.1 a2.1) (h2 : a1.2 = a2.2)
    (symbol : String) :
    SimRel (force_close_step cfg data c1 idx reason a1 symbol).1
      (force_close_step cfg data c2 idx reason a2 symbol).1 ∧
    (force_close_step cfg data c1 idx reason a1 symbol).2
      = (force_close_step cfg data c2 idx reason a2 symbol).2 := by
  obtain ⟨hh, hw, hp, hr, hc, hk, ht, he, ha, hu, hl⟩ := h
  unfold force_close_step
  dsimp only
  rw [hp]
  cases hd : dget a2.1.positions symbol with
  | none => exact ⟨⟨hh, hw, hp, hr, hc, hk, ht, he, ha, hu, hl⟩, h2⟩
  | some r =>
      refine ⟨?_, by rw [h2]⟩
      exact notifyRisk_rel c1 c2 r (close_position_rel cfg data rfl idx rfl
        reason ⟨hh, hw, hp, hr, hc, hk, ht, he, ha, hu, hl⟩)

/-- force_close_all preserves the relation and the ref output. -/
theorem force_close_all_rel (cfg : StrategyConfig) (data : List Candle)
    (c1 c2 : ℕ → String) (idx : ℕ) (reason : String) {s1 s2 : SimState}
    (h : SimRel s1 s2) :
    SimRel (force_close_all cfg data c1 idx reason s1).1
      (force_close_all cfg data c2 idx reason s2).1 ∧
    (force_close_all cfg data c1 idx reason s1).2
      = (force_close_all cfg data c2 idx reason s2).2 := by
  have hp : s1.positions = s2.positions := h.2.2.1
  unfold force_close_all
  by_cases hemp : s2.positions = []
  · rw [if_pos (by rw [hp]; exact hemp), if_pos hemp]
    exact ⟨h, rfl⟩
  · rw [if_neg (by rw [hp]; exact hemp), if_neg hemp, hp]
    have hfold : ∀ (keys : List String) (p1 p2 : SimState × List ℕ),
        SimRel p1.1 p2.1 → p1.2 = p2.2 →
        SimRel ((keys.foldl (force_close_step cfg data c1 idx reason) p1)).1
          ((keys.foldl (force_close_step cfg data c2 idx reason) p2)).1 ∧
        ((keys.foldl (force_close_step cfg data c1 idx reason) p1)).2
          = ((keys.foldl (force_close_step cfg data c2 idx reason) p2)).2 := by
      intro keys
      induction keys with
      | nil => exact fun p1 p2 e1 e2 => ⟨e1, e2⟩
      | cons k ks ih =>
          intro p1 p2 e1 e2
          obtain ⟨f1, f2⟩ := force_close_step_rel cfg data c1 c2 idx reason
            e1 e2 k
          exact ih _ _ f1 f2
    exact hfold _ _ _ h rfl

/-- update_capital reads only id-independent trade fields. -/
theorem update_capital_rel (r : ℕ) {s1 s2 : SimState} (h : SimRel s1 s2) :
    SimRel (update_capital s1 r) (update_capital s2 r) := by
  obtain ⟨hh, hw, hp, hr, hc, hk, ht, he, ha, hu, hl⟩ := h
  have hT := hget_erase hh r
  have hpn' := congrArg Trade.pnl_usdt hT
  have hpn : (hget s1.heap r).pnl_usdt = (hget s2.heap r).pnl_usdt := hpn'
  unfold update_capital
  refine ⟨hh, hw, hp, hr, ?_, ?_, ht, he, ha, hu, hl⟩
  · dsimp only
    rw [hc, hpn]
  · dsimp only
    rw [hc, hk, hpn]

/-- The settlement fold over equal force-closed refs preserves the
relation. -/
theorem settle_fold_rel (l1 l2 : List ℕ) (hl : l1 = l2) {s1 s2 : SimState}
    (h : SimRel s1 s2) :
    SimRel (l1.foldl update_capital s1) (l2.foldl update_capital s2) := by
  subst hl
  induction l1 generalizing s1 s2 with
  | nil => exact h
  | cons x xs ih => exact ih (update_capital_rel x h)

/-- run_on_symbol preserves the relation and the symbol_trades output. -/
theorem run_on_symbol_rel (cfg : StrategyConfig) (sym : String)
    (data : List Candle) (u1 c1 u2 c2 : ℕ → String) {s1 s2 : SimState}
    (h : SimRel s1 s2) :
    SimRel (run_on_symbol cfg sym data u1 c1 s1).1
      (run_on_symbol cfg sym data u2 c2 s2).1 ∧
    (run_on_symbol cfg sym data u1 c1 s1).2
      = (run_on_symbol cfg sym data u2 c2 s2).2 := by
  unfold run_on_symbol
  dsimp only
  obtain ⟨hL1, hL2⟩ := runLoop_rel cfg sym data u1 c1 u2 c2 h
  obtain ⟨hF1, hF2⟩ := force_close_all_rel cfg data c1 c2 (data.length - 1)
    "eod" hL1
  exact ⟨settle_fold_rel _ _ hF2 hF1, hL2⟩

/-- The whole sequential run preserves the relation across uuid/clock
streams. -/
theorem run_sequential_rel (cfg : StrategyConfig)
    (market_data : List (String × List Candle)) (u1 c1 u2 c2 : ℕ → String) :
    SimRel (run_sequential cfg market_data u1 c1)
      (run_sequential cfg market_data u2 c2) := by
  unfold run_sequential
  have hfold : ∀ (l : List (String × List Candle)) (s1 s2 : SimState),
      SimRel s1 s2 →
      SimRel (l.foldl (fun s p => (run_on_symbol cfg p.1 p.2 u1 c1 s).1) s1)
        (l.foldl (fun s p => (run_on_symbol cfg p.1 p.2 u2 c2 s).1) s2) := by
    intro l
    induction l with
    | nil => exact fun s1 s2 e => e
    | cons p ps ih =>
        exact fun s1 s2 e =>
          ih _ _ (run_on_symbol_rel cfg p.1 p.2 u1 c1 u2 c2 e).1
  exact hfold market_data _ _ (SimRel_refl (initState cfg))

/-- The aggregate trade lists of related states agree after id-erasure. -/
theorem allTradesList_erase {s1 s2 : SimState} (h : SimRel s1 s2) :
    (allTradesList s1).map eraseId = (allTradesList s2).map eraseId := by
  obtain ⟨hh, hw, hp, hr, hc, hk, ht, he, ha, hu, hl⟩ := h
  unfold allTradesList
  rw [List.map_map, List.map_map, ha]
  exact List.map_congr_left (fun r _ => hget_erase hh r)

set_option maxRecDepth 400000 in
/-- C7 counterexample: two sequential runs over the identical candle input
and configuration, differing only in the uuid4 draws and wall-clock readings
of the two executions, produce different Trade lists (the trade_id fields
differ), refuting byte-identical determinism of the trade lists. -/
theorem C7_counterexample :
    allTradesList (run_sequential cfgA [("X", dataRes)] testUuid testClock)
      ≠ allTradesList (run_sequential cfgA [("X", dataRes)] testUuid2
          testClock2) := by
  with_unfolding_all decide

/-- C7 (amended): two sequential runs over identical candle input and
configuration agree on everything except the uuid4-derived trade_id fields
and the wall-clock stamps of the RiskManager history: the Trade lists are
identical after erasing trade ids (same fields, same order), the portfolio
snapshot sequences are byte-identical, and the full states are related by
SimRel. -/
theorem C7_determinism_modulo_ids (cfg : StrategyConfig)
    (market_data : List (String × List Candle)) (u1 c1 u2 c2 : ℕ → String) :
    (allTradesList (run_sequential cfg market_data u1 c1)).map eraseId
      = (allTradesList (run_sequential cfg market_data u2 c2)).map eraseId ∧
    (run_sequential cfg market_data u1 c1).equity_history
      = (run_sequential cfg market_data u2 c2).equity_history ∧
    SimRel (run_sequential cfg market_data u1 c1)
      (run_sequential cfg market_data u2 c2) := by
  have h := run_sequential_rel cfg market_data u1 c1 u2 c2
  exact ⟨allTradesList_erase h, h.2.2.2.2.2.2.2.1, h⟩

/-- C8 (amended): the zero-anchor guard exists only in the numba detector.
Backtester.detect_pump_numba emits no candidate and raises no error when the
anchor close is exactly zero (its pump_percent division is skipped, though a
negative anchor is not suppressed); StrategyEngine.scan_for_pumps — the
detector Backtester.run_multiprocess uses — has no guard: its division is
executed with a zero denominator under float64 semantics, and a zero anchor
with a positive window maximum yields pump_percent = +inf and DOES emit a
candidate. -/
theorem C8_zero_anchor_guard_by_detector :
    (∀ (symbol : String) (high close : ℕ → ℚ) (idx pw : ℕ) (threshold : ℚ),
        close (idx - pw) = 0 →
        scan_for_pumps_numba symbol high close idx pw threshold = none) ∧
    (∀ (cfg : StrategyConfig) (symbol : String) (data : List Candle) (idx : ℕ),
        ¬ idx < cfg.pump_window →
        (candleAt data (idx - cfg.pump_window)).close = 0 →
        0 < (candleAt data (idxmaxHigh data (idx - cfg.pump_window) idx)).high →
        ∃ it, scan_for_pumps cfg symbol data idx = some it ∧
          it.pump_percent = FloatQ.posInf) := by
  constructor
  · intro symbol high close idx pw threshold h
    have hd : detect_pump_numba high close idx pw threshold = (0, -1, 0) := by
      unfold detect_pump_numba
      simp [h]
    unfold scan_for_pumps_numba
    rw [hd]
    rfl
  · intro cfg symbol data idx h1 h2 h3
    unfold scan_for_pumps
    rw [if_neg h1]
    dsimp only
    rw [h2]
    have hdiv : fdiv
        ((candleAt data (idxmaxHigh data (idx - cfg.pump_window) idx)).high - 0)
        0 = FloatQ.posInf := by
      unfold fdiv
      rw [if_pos rfl, if_pos (by rw [sub_zero]; exact h3)]
    rw [hdiv]
    exact ⟨_, rfl, rfl⟩

/-- Witness for C8: the numba detector drops the zero-anchor bar, while
scan_for_pumps on the same kind of input emits a candidate with an infinite
pump_percent. -/
theorem C8_zero_anchor_guard_by_detector_witness :
    scan_for_pumps_numba "X" (fun _ => 100) (fun _ => 0) 2 2 (1/5) = none ∧
    ∃ it, scan_for_pumps cfgA "X" dataZero 2 = some it ∧
      it.pump_percent = FloatQ.posInf :=
  ⟨C8_zero_anchor_guard_by_detector.1 "X" (fun _ => 100) (fun _ => 0) 2 2
      (1/5) rfl,
   C8_zero_anchor_guard_by_detector.2 cfgA "X" dataZero 2
      (by with_unfolding_all decide) (by with_unfolding_all decide)
      (by with_unfolding_all decide)⟩
